import Mathlib

set_option maxHeartbeats 1000000

/-!
Shallow embedding of the has-many relation query builder and query client of
`src/Orm/Relations/HasMany/QueryBuilder.ts` and
`src/Orm/Relations/HasMany/QueryClient.ts`.

Rows and plain payload objects are mutable JavaScript objects; we model them as
references (`Ref`) into a heap carried by a `World`.  Machine effects (begun,
committed and rolled-back transactions, persisted records, collaborator calls)
are recorded both as state (`committed` / `pending`) and as an append-only
event trace, so that ordering claims can be stated about the trace.

Collaborator code of this repository that is not under `src/`
(`utils.getValue`, `utils.unique`, `utils.managedTransaction`,
`HasMany.hydrateForPersistance`, the related model's persistence API, the
`LucidRow.save` row contract and `HasManySubQueryBuilder`) is modelled from
the specification; each such definition says so in its doc comment.
-/

abbrev FieldName := String

abbrev Ref := Nat

abbrev TrxId := Nat

/-- A flat field-name / value association list (a plain JS object's own
enumerable fields; values abstracted to integers). -/
abbrev Fields := List (FieldName × Int)

/-- Read a field from a field list (JS property read; `none` = `undefined`). -/
def lookupField : Fields → FieldName → Option Int
  | [], _ => none
  | (k, v) :: rest, key => if k = key then some v else lookupField rest key

/-- Write a field on a field list (JS property assignment). -/
def setField : Fields → FieldName → Int → Fields
  | [], key, v => [(key, v)]
  | (k, w) :: rest, key, v =>
      if k = key then (key, v) :: rest else (k, w) :: setField rest key v

/-- Merge the second field list over the first, left to right. -/
def mergeFields (base : Fields) : Fields → Fields
  | [] => base
  | (k, v) :: rest => mergeFields (setField base k v) rest

/-- In-memory state of one row instance (`LucidRow`) or plain payload object:
its current attributes, the attributes the storage layer will assign on the
next insert (e.g. an auto-increment id), the `$trx` slot and whether the row
has been persisted. -/
structure RowData where
  attributes : Fields
  generatedOnSave : Fields
  trx : Option TrxId
  persisted : Bool
deriving DecidableEq

/-- What one persistence round trip writes: the row object it was issued for
and the attribute snapshot sent to storage. -/
structure PersistRecord where
  ref : Ref
  attributes : Fields
deriving DecidableEq

/-- One observable machine effect. -/
inductive Event where
  | trxBegin (t : TrxId)
  | trxCommit (t : TrxId)
  | trxRollback (t : TrxId)
  | persist (rec : PersistRecord) (trx : Option TrxId)
  | relatedCall (name : String) (predicateFields : List FieldName)
      (payloads : List Fields) (trx : TrxId)
deriving DecidableEq

/-- Heap lookup by reference. -/
def lookupRef : List (Ref × RowData) → Ref → Option RowData
  | [], _ => none
  | (r, d) :: rest, key => if r = key then some d else lookupRef rest key

/-- Heap update: replace the first binding of `key`; no-op when absent. -/
def updateRef : List (Ref × RowData) → Ref → RowData → List (Ref × RowData)
  | [], _, _ => []
  | (r, d0) :: rest, key, d =>
      if r = key then (key, d) :: rest else (r, d0) :: updateRef rest key d

/-- Records buffered under an open transaction. -/
def pendingOf : List (TrxId × List PersistRecord) → TrxId → List PersistRecord
  | [], _ => []
  | (t, recs) :: rest, tid => if t = tid then recs else pendingOf rest tid

/-- Buffer one more record under transaction `tid`. -/
def addPending : List (TrxId × List PersistRecord) → TrxId → PersistRecord →
    List (TrxId × List PersistRecord)
  | [], tid, rec => [(tid, [rec])]
  | (t, recs) :: rest, tid, rec =>
      if t = tid then (t, recs ++ [rec]) :: rest
      else (t, recs) :: addPending rest tid rec

/-- Drop every buffer of transaction `tid`. -/
def removePending : List (TrxId × List PersistRecord) → TrxId →
    List (TrxId × List PersistRecord)
  | [], _ => []
  | (t, recs) :: rest, tid =>
      if t = tid then removePending rest tid
      else (t, recs) :: removePending rest tid

/-- The whole mutable world: the object heap, the durable (committed) records,
the per-transaction pending buffers, the event trace, allocators for fresh
transaction ids and object references, and a fault budget: `some n` makes the
`n` next persistence round trips succeed and every later one fail, `none`
never fails (used to model storage-layer failures). -/
structure World where
  heap : List (Ref × RowData)
  committed : List PersistRecord
  pending : List (TrxId × List PersistRecord)
  events : List Event
  nextTrx : TrxId
  nextRef : Ref
  persistBudget : Option Nat
deriving DecidableEq

def World.getRow (w : World) (r : Ref) : Option RowData :=
  lookupRef w.heap r

def World.setRow (w : World) (r : Ref) (d : RowData) : World :=
  { w with heap := updateRef w.heap r d }

def World.allocRow (w : World) (d : RowData) : Ref × World :=
  (w.nextRef, { w with heap := w.heap ++ [(w.nextRef, d)], nextRef := w.nextRef + 1 })

def World.hasRow (w : World) (r : Ref) : Prop :=
  (w.getRow r).isSome = true

instance (w : World) (r : Ref) : Decidable (w.hasRow r) := by
  unfold World.hasRow; infer_instance

/-- The `$trx` slot of a row, `none` when the row is absent. -/
def World.rowTrx (w : World) (r : Ref) : Option TrxId :=
  match w.getRow r with
  | some d => d.trx
  | none => none

/-- Every heap binding sits strictly below the reference allocator. -/
def World.refsClosed (w : World) : Prop :=
  ∀ p ∈ w.heap, p.1 < w.nextRef

instance (w : World) : Decidable w.refsClosed := by
  unfold World.refsClosed; infer_instance

/-- Every pending buffer belongs to a transaction id strictly below the
transaction allocator. -/
def World.trxClosed (w : World) : Prop :=
  ∀ p ∈ w.pending, p.1 < w.nextTrx

instance (w : World) : Decidable w.trxClosed := by
  unfold World.trxClosed; infer_instance

/-- Errors an operation can surface. -/
inductive OpError where
  | missingKey
  | missingRow
  | persistFailed
deriving DecidableEq

/-- Modelled from the spec: `getValue` from `utils` (not under `src/`) —
"reads the field named by the key descriptor from the row. Fails with
`MissingKeyError` if the field is undefined/null." -/
def getValue (w : World) (r : Ref) (key : FieldName) : Except OpError Int :=
  match w.getRow r with
  | none => .error .missingKey
  | some row =>
      match lookupField row.attributes key with
      | none => .error .missingKey
      | some v => .ok v

/-- Modelled from the spec: `unique` from `utils` (not under `src/`) —
"returns distinct values preserving no particular order". -/
def unique (l : List Int) : List Int :=
  l.dedup

/-- The database client handed to the relation (collaborator; only its
identity and its ability to open fresh knex query builders matter here). -/
structure Client where
  id : Nat
deriving DecidableEq

/-- A generic query predicate emitted on the underlying knex builder. -/
inductive QueryPredicate where
  | whereEq (column : FieldName) (value : Int)
  | whereIn (column : FieldName) (values : List Int)
deriving DecidableEq

/-- The underlying generic (knex) query builder: the predicates added so far. -/
structure KnexBuilder where
  predicates : List QueryPredicate
deriving DecidableEq

def KnexBuilder.whereEq (b : KnexBuilder) (column : FieldName) (value : Int) :
    KnexBuilder :=
  { b with predicates := b.predicates ++ [.whereEq column value] }

def KnexBuilder.whereIn (b : KnexBuilder) (column : FieldName) (values : List Int) :
    KnexBuilder :=
  { b with predicates := b.predicates ++ [.whereIn column values] }

def Client.knexQuery (_ : Client) : KnexBuilder :=
  { predicates := [] }

/-- The has-many relation metadata (`HasMany` from `./index`, not under
`src/`; fields modelled from the spec's `RelationDescriptor`): local key,
foreign key as stored, foreign key cast for comparison, and the optional
query-customization hook.  The user hook itself is opaque; builders count its
invocations. -/
structure HasMany where
  localKey : FieldName
  foreignKey : FieldName
  foreignCastAsKey : FieldName
  onQueryHook : Option Unit
deriving DecidableEq

/-- The parent binding of a relation query builder: `ModelContract` or
`ModelContract[]` (`Array.isArray` distinguishes the two). -/
inductive ParentOrParents where
  | one (row : Ref)
  | many (rows : List Ref)
deriving DecidableEq

/-- `HasManyQueryBuilder`: wraps the knex builder in scope of one relation.
`appliedConstraints` is the base builder's one-shot `$appliedConstraints`
flag, `isRelatedPreloadQuery` the base builder's preload marker, `hookCalls`
the number of times the relation's query hook ran on this builder. -/
structure HasManyQueryBuilder where
  knexBuilder : KnexBuilder
  client : Client
  parent : ParentOrParents
  relation : HasMany
  isEager : Bool
  appliedConstraints : Bool
  isRelatedPreloadQuery : Bool
  hookCalls : Nat
deriving DecidableEq

/-- The `HasManyQueryBuilder` constructor (`isEager` defaults to `false` at
call sites that omit it). -/
def HasManyQueryBuilder.make (builder : KnexBuilder) (client : Client)
    (parent : ParentOrParents) (relation : HasMany) (isEager : Bool) :
    HasManyQueryBuilder :=
  { knexBuilder := builder, client := client, parent := parent,
    relation := relation, isEager := isEager, appliedConstraints := false,
    isRelatedPreloadQuery := false, hookCalls := 0 }

/-- `this.parent.map((model) => getValue(model, localKey, ...))`: resolve the
local key of every parent, failing at the first missing key as the thrown
exception would. -/
def resolveAll (w : World) (rows : List Ref) (key : FieldName) :
    Except OpError (List Int) :=
  match rows with
  | [] => .ok []
  | r :: rest =>
      match getValue w r key with
      | .error e => .error e
      | .ok v =>
          match resolveAll w rest key with
          | .error e => .error e
          | .ok vs => .ok (v :: vs)

/-- `HasManyQueryBuilder.applyConstraints`.  Returns the updated builder and
the error a failing key resolution would throw (the one-shot flag is set
before resolution, exactly as in the source). -/
def applyConstraints (w : World) (b : HasManyQueryBuilder) :
    HasManyQueryBuilder × Option OpError :=
  if b.appliedConstraints then (b, none)
  else
    let b1 : HasManyQueryBuilder := { b with appliedConstraints := true }
    match b1.parent with
    | .many rows =>
        match resolveAll w rows b1.relation.localKey with
        | .error e => (b1, some e)
        | .ok vals =>
            ({ b1 with knexBuilder :=
                b1.knexBuilder.whereIn b1.relation.foreignCastAsKey (unique vals) },
             none)
    | .one row =>
        match getValue w row b1.relation.localKey with
        | .error e => (b1, some e)
        | .ok v =>
            ({ b1 with knexBuilder :=
                b1.knexBuilder.whereEq b1.relation.foreignCastAsKey v },
             none)

/-- `HasManyQueryBuilder.getRelationKeys`. -/
def getRelationKeys (b : HasManyQueryBuilder) : List FieldName :=
  [b.relation.foreignCastAsKey]

/-- C1 -- `applyConstraints()` on a fresh builder adds exactly one predicate:
an equality on the cast foreign key against the parent's resolved local key in
single-parent mode, and a set-membership predicate over the deduplicated
resolved local keys in batch mode (duplicates such as `[1, 2, 2, 3]` collapse
to the three-element set). -/
theorem applyConstraints_adds_one_predicate
    (w : World) (b : HasManyQueryBuilder) (h : b.appliedConstraints = false) :
    (∀ row v, b.parent = .one row →
        getValue w row b.relation.localKey = .ok v →
        (applyConstraints w b).1.knexBuilder.predicates
          = b.knexBuilder.predicates
              ++ [.whereEq b.relation.foreignCastAsKey v])
    ∧
    (∀ rows vals, b.parent = .many rows →
        resolveAll w rows b.relation.localKey = .ok vals →
        (applyConstraints w b).1.knexBuilder.predicates
          = b.knexBuilder.predicates
              ++ [.whereIn b.relation.foreignCastAsKey (unique vals)]
        ∧ (unique vals).Nodup
        ∧ ∀ x, x ∈ unique vals ↔ x ∈ vals) := by
  constructor
  · intro row v hrow hv
    simp only [applyConstraints, h, Bool.false_eq_true, if_false, hrow, hv,
      KnexBuilder.whereEq]
  · intro rows vals hrows hvals
    refine ⟨?_, List.nodup_dedup vals, fun x => List.mem_dedup⟩
    simp only [applyConstraints, h, Bool.false_eq_true, if_false, hrows, hvals,
      KnexBuilder.whereIn]

/-- Concrete check for C1: four parents with local keys 1, 2, 2, 3 yield a
single `IN` predicate over exactly `[1, 2, 3]`. -/
theorem applyConstraints_adds_one_predicate_witness :
    (applyConstraints
        { heap := [(0, ⟨[("id", 1)], [], none, true⟩),
                   (1, ⟨[("id", 2)], [], none, true⟩),
                   (2, ⟨[("id", 2)], [], none, true⟩),
                   (3, ⟨[("id", 3)], [], none, true⟩)],
          committed := [], pending := [], events := [], nextTrx := 0,
          nextRef := 4, persistBudget := none }
        (HasManyQueryBuilder.make { predicates := [] } ⟨0⟩
          (.many [0, 1, 2, 3]) ⟨"id", "author_id", "posts.author_id", none⟩
          false)).1.knexBuilder.predicates
      = [.whereIn "posts.author_id" [1, 2, 3]] := by
  have h := (applyConstraints_adds_one_predicate
      { heap := [(0, ⟨[("id", 1)], [], none, true⟩),
                 (1, ⟨[("id", 2)], [], none, true⟩),
                 (2, ⟨[("id", 2)], [], none, true⟩),
                 (3, ⟨[("id", 3)], [], none, true⟩)],
        committed := [], pending := [], events := [], nextTrx := 0,
        nextRef := 4, persistBudget := none }
      (HasManyQueryBuilder.make { predicates := [] } ⟨0⟩
        (.many [0, 1, 2, 3]) ⟨"id", "author_id", "posts.author_id", none⟩
        false)
      rfl).2 [0, 1, 2, 3] [1, 2, 2, 3] rfl rfl
  calc _ = [] ++ [QueryPredicate.whereIn "posts.author_id" (unique [1, 2, 2, 3])] :=
        h.1
    _ = [.whereIn "posts.author_id" [1, 2, 3]] := by decide

/-- A builder whose one-shot flag is already set is returned unchanged. -/
theorem applyConstraints_applied (w : World) (b : HasManyQueryBuilder)
    (h : b.appliedConstraints = true) : applyConstraints w b = (b, none) := by
  simp only [applyConstraints, h, if_true]

/-- Any call to `applyConstraints` leaves the one-shot flag set. -/
theorem applyConstraints_sets_flag (w : World) (b : HasManyQueryBuilder)
    (h : b.appliedConstraints = false) :
    (applyConstraints w b).1.appliedConstraints = true := by
  simp only [applyConstraints, h, Bool.false_eq_true, if_false]
  rcases hp : b.parent with row | rows
  · simp only [hp]
    cases hg : getValue w row b.relation.localKey <;> simp [hg]
  · simp only [hp]
    cases hg : resolveAll w rows b.relation.localKey <;> simp [hg]

/-- C2 -- `applyConstraints()` is idempotent: after one call the one-shot
`$appliedConstraints` flag is set, so a second call returns the builder
unchanged and reports no error, leaving the generated predicates those of the
single first call. -/
theorem applyConstraints_idempotent (w : World) (b : HasManyQueryBuilder) :
    applyConstraints w (applyConstraints w b).1 = ((applyConstraints w b).1, none) := by
  by_cases h : b.appliedConstraints = true
  · rw [applyConstraints_applied w b h, applyConstraints_applied w b h]
  · have h' : b.appliedConstraints = false := by
      revert h; cases b.appliedConstraints <;> simp
    exact applyConstraints_applied w _ (applyConstraints_sets_flag w b h')

/-! ## Transactions, rows and collaborator persistence -/

/-- `this.parent.$trx || this.client`: either an inherited transaction handle
or the raw client. -/
inductive TrxOrClient where
  | trx (t : TrxId)
  | client (c : Client)
deriving DecidableEq

/-- Resolve `this.parent.$trx || this.client`. -/
def parentTrxOrClient (w : World) (parent : Ref) (client : Client) : TrxOrClient :=
  match w.rowTrx parent with
  | some t => .trx t
  | none => .client client

/-- Open a fresh transaction (collaborator `begin`). -/
def World.beginTrx (w : World) : TrxId × World :=
  (w.nextTrx,
   { w with nextTrx := w.nextTrx + 1,
            pending := w.pending ++ [(w.nextTrx, [])],
            events := w.events ++ [.trxBegin w.nextTrx] })

/-- Commit: move the transaction's buffered records into the durable store. -/
def World.commitTrx (w : World) (t : TrxId) : World :=
  { w with committed := w.committed ++ pendingOf w.pending t,
           pending := removePending w.pending t,
           events := w.events ++ [.trxCommit t] }

/-- Roll back: discard the transaction's buffered records. -/
def World.rollbackTrx (w : World) (t : TrxId) : World :=
  { w with pending := removePending w.pending t,
           events := w.events ++ [.trxRollback t] }

/-- Modelled from the spec: `managedTransaction` from `utils` (not under
`src/`) — given an existing handle, run the work with it directly and never
commit or roll back; given a plain client, open a new transaction, commit on
normal return, roll back and propagate on failure. -/
def managedTransaction {A : Type} (source : TrxOrClient)
    (work : TrxId → World → World × Except OpError A) :
    World → World × Except OpError A :=
  fun w =>
    match source with
    | .trx t => work t w
    | .client _ =>
        match work (w.beginTrx).1 (w.beginTrx).2 with
        | (w2, .ok a) => (w2.commitTrx (w.beginTrx).1, .ok a)
        | (w2, .error e) => (w2.rollbackTrx (w.beginTrx).1, .error e)

/-- Consume one unit of the persistence fault budget; `false` means this
round trip fails. -/
def World.consumeBudget (w : World) : World × Bool :=
  match w.persistBudget with
  | none => (w, true)
  | some 0 => (w, false)
  | some (n + 1) => ({ w with persistBudget := some n }, true)

/-- Record one successful persistence round trip: into the pending buffer of
the row's transaction, or straight into the durable store when no transaction
is attached. -/
def World.recordPersist (w : World) (rec : PersistRecord) (t : Option TrxId) : World :=
  match t with
  | none => { w with committed := w.committed ++ [rec],
                     events := w.events ++ [.persist rec none] }
  | some tid => { w with pending := addPending w.pending tid rec,
                         events := w.events ++ [.persist rec (some tid)] }

/-- One storage round trip for `rec` under handle `t`, subject to the fault
budget. -/
def tryPersist (rec : PersistRecord) (t : Option TrxId) (w : World) :
    World × Except OpError Unit :=
  match w.consumeBudget with
  | (w1, false) => (w1, .error .persistFailed)
  | (w1, true) => (w1.recordPersist rec t, .ok ())

/-- Modelled from the spec: the `LucidRow.save()` row contract (not under
`src/`) — persists the row's current field state under its current `$trx`
slot and assigns the storage-generated keys (merged from `generatedOnSave`). -/
def rowSave (r : Ref) (w : World) : World × Except OpError Unit :=
  match w.getRow r with
  | none => (w, .error .missingRow)
  | some row =>
      match w.consumeBudget with
      | (w1, false) => (w1, .error .persistFailed)
      | (w1, true) =>
          let row' : RowData :=
            { row with attributes := mergeFields row.attributes row.generatedOnSave,
                       generatedOnSave := [],
                       persisted := true }
          ((w1.setRow r row').recordPersist ⟨r, row'.attributes⟩ row.trx, .ok ())

/-- `row.$trx = trx` (no-op on a dangling reference). -/
def setTrx (r : Ref) (t : TrxId) (w : World) : World :=
  match w.getRow r with
  | some row => w.setRow r { row with trx := some t }
  | none => w

/-- Modelled from the spec: `HasMany.hydrateForPersistance` from `./index`
(not under `src/`) — sets the foreign-key field on the child row or payload
to the parent's resolved local-key value, failing when the local key cannot
be resolved. -/
def hydrateForPersistance (rel : HasMany) (parent child : Ref) (w : World) :
    World × Except OpError Unit :=
  match getValue w parent rel.localKey with
  | .error e => (w, .error e)
  | .ok v =>
      match w.getRow child with
      | none => (w, .error .missingRow)
      | some c =>
          (w.setRow child { c with attributes := setField c.attributes rel.foreignKey v },
           .ok ())

/-- `Object.assign({}, values)`: allocate a fresh plain object carrying a copy
of the source object's fields. -/
def objAssignCopy (source : Ref) (w : World) : World × Except OpError Ref :=
  match w.getRow source with
  | none => (w, .error .missingRow)
  | some d => ((w.allocRow ⟨d.attributes, [], none, false⟩).2, .ok w.nextRef)

/-- Build a fresh related row carrying `attrs` under handle `t` and persist
it (the shared tail of every collaborator create path). -/
def createRow (attrs : Fields) (t : TrxId) (w : World) : World × Except OpError Ref :=
  match rowSave w.nextRef (w.allocRow ⟨attrs, [], some t, false⟩).2 with
  | (w2, .error e) => (w2, .error e)
  | (w2, .ok _) => (w2, .ok w.nextRef)

/-- Modelled from the spec: the related model's `create(values, { client })`
collaborator — builds one new related row from the payload's fields and
persists it inside the given transaction. -/
def relatedCreate (values : Ref) (t : TrxId) (w : World) :
    World × Except OpError Ref :=
  match w.getRow values with
  | none => (w, .error .missingRow)
  | some payload => createRow payload.attributes t w

/-- Modelled from the spec: the related model's `createMany(values[], opts)`
collaborator — creates and persists one row per payload, in payload order,
aborting at the first failure. -/
def relatedCreateMany (values : List Ref) (t : TrxId) (w : World) :
    World × Except OpError (List Ref) :=
  match values with
  | [] => (w, .ok [])
  | v :: rest =>
      match relatedCreate v t w with
      | (w1, .error e) => (w1, .error e)
      | (w1, .ok r) =>
          match relatedCreateMany rest t w1 with
          | (w2, .error e) => (w2, .error e)
          | (w2, .ok rs) => (w2, .ok (r :: rs))

/-- The records visible to a lookup running inside transaction `t`: the
durable store plus the transaction's own buffer. -/
def visibleRecords (w : World) (t : TrxId) : List PersistRecord :=
  w.committed ++ pendingOf w.pending t

/-- Does a stored record match the payload on every predicate field? -/
def recordMatches (rec : PersistRecord) (fields : List FieldName)
    (payload : Fields) : Bool :=
  fields.all (fun f => lookupField rec.attributes f == lookupField payload f)

/-- First visible record agreeing with the payload on the predicate fields. -/
def findMatching (recs : List PersistRecord) (fields : List FieldName)
    (payload : Fields) : Option PersistRecord :=
  match recs with
  | [] => none
  | rec :: rest =>
      if recordMatches rec fields payload then some rec
      else findMatching rest fields payload

/-- Modelled from the spec: the related model's
`firstOrCreate(search, payload?, opts)` collaborator — returns the first
matching related instance, or persists a new row built from the search
predicate merged with the save payload. -/
def relatedFirstOrCreate (search : Ref) (savePayload : Fields) (t : TrxId)
    (w : World) : World × Except OpError Ref :=
  match w.getRow search with
  | none => (w, .error .missingRow)
  | some s =>
      match findMatching (visibleRecords w t) (s.attributes.map Prod.fst) s.attributes with
      | some rec => (w, .ok rec.ref)
      | none => createRow (mergeFields s.attributes savePayload) t w

/-- Modelled from the spec: the related model's
`updateOrCreate(search, update, opts)` collaborator — updates the first
matching row with the update payload, or persists a new row built from the
search predicate merged with the update payload. -/
def relatedUpdateOrCreate (search : Ref) (updatePayload : Fields) (t : TrxId)
    (w : World) : World × Except OpError Ref :=
  match w.getRow search with
  | none => (w, .error .missingRow)
  | some s =>
      match findMatching (visibleRecords w t) (s.attributes.map Prod.fst) s.attributes with
      | some rec =>
          match tryPersist ⟨rec.ref, mergeFields rec.attributes updatePayload⟩ (some t) w with
          | (w2, .error e) => (w2, .error e)
          | (w2, .ok _) => (w2, .ok rec.ref)
      | none => createRow (mergeFields s.attributes updatePayload) t w

/-- Attribute snapshots of a list of payload objects. -/
def payloadAttrs (w : World) (payload : List Ref) : List Fields :=
  payload.map (fun r =>
    match w.getRow r with
    | some d => d.attributes
    | none => [])

/-- Fetch-or-create one payload: return the visible match on the predicate
fields, or create and persist a new row from the payload. -/
def fetchOrCreateOne (fields : List FieldName) (v : Ref) (t : TrxId) (w : World) :
    World × Except OpError Ref :=
  match w.getRow v with
  | none => (w, .error .missingRow)
  | some d =>
      match findMatching (visibleRecords w t) fields d.attributes with
      | some rec => (w, .ok rec.ref)
      | none => createRow d.attributes t w

/-- Iterate `fetchOrCreateOne` over the payloads in order. -/
def fetchOrCreateLoop (fields : List FieldName) (payload : List Ref) (t : TrxId)
    (w : World) : World × Except OpError (List Ref) :=
  match payload with
  | [] => (w, .ok [])
  | v :: rest =>
      match fetchOrCreateOne fields v t w with
      | (w1, .error e) => (w1, .error e)
      | (w1, .ok r) =>
          match fetchOrCreateLoop fields rest t w1 with
          | (w2, .error e) => (w2, .error e)
          | (w2, .ok rs) => (w2, .ok (r :: rs))

/-- Record the delegated collection-level collaborator call. -/
def World.recordRelatedCall (w : World) (name : String) (fields : List FieldName)
    (payloads : List Fields) (t : TrxId) : World :=
  { w with events := w.events ++ [.relatedCall name fields payloads t] }

/-- Modelled from the spec: the related model's
`fetchOrCreateMany(predicateFields, payloads, opts)` collaborator — records
the delegated call, then fetches the visible match (on the predicate fields)
or creates a new row, per payload in order. -/
def relatedFetchOrCreateMany (fields : List FieldName) (payload : List Ref)
    (t : TrxId) (w : World) : World × Except OpError (List Ref) :=
  fetchOrCreateLoop fields payload t
    (w.recordRelatedCall "fetchOrCreateMany" fields (payloadAttrs w payload) t)

/-- Update-or-create one payload: update the visible match on the predicate
fields with the payload's fields, or create and persist a new row from it. -/
def updateOrCreateOne (fields : List FieldName) (v : Ref) (t : TrxId) (w : World) :
    World × Except OpError Ref :=
  match w.getRow v with
  | none => (w, .error .missingRow)
  | some d =>
      match findMatching (visibleRecords w t) fields d.attributes with
      | some rec =>
          match tryPersist ⟨rec.ref, mergeFields rec.attributes d.attributes⟩ (some t) w with
          | (w2, .error e) => (w2, .error e)
          | (w2, .ok _) => (w2, .ok rec.ref)
      | none => createRow d.attributes t w

/-- Iterate `updateOrCreateOne` over the payloads in order. -/
def updateOrCreateLoop (fields : List FieldName) (payload : List Ref) (t : TrxId)
    (w : World) : World × Except OpError (List Ref) :=
  match payload with
  | [] => (w, .ok [])
  | v :: rest =>
      match updateOrCreateOne fields v t w with
      | (w1, .error e) => (w1, .error e)
      | (w1, .ok r) =>
          match updateOrCreateLoop fields rest t w1 with
          | (w2, .error e) => (w2, .error e)
          | (w2, .ok rs) => (w2, .ok (r :: rs))

/-- Modelled from the spec: the related model's
`updateOrCreateMany(predicateFields, payloads, opts)` collaborator — records
the delegated call, then updates the visible match or creates a new row, per
payload in order. -/
def relatedUpdateOrCreateMany (fields : List FieldName) (payload : List Ref)
    (t : TrxId) (w : World) : World × Except OpError (List Ref) :=
  updateOrCreateLoop fields payload t
    (w.recordRelatedCall "updateOrCreateMany" fields (payloadAttrs w payload) t)

/-! ## The has-many query client -/

/-- Modelled from the spec: `HasManySubQueryBuilder` (only its construction
site is under `src/`) — a relation builder with no bound parent, used for
existence/aggregate sub-expressions; it still counts query-hook invocations. -/
structure HasManySubQueryBuilder where
  knexBuilder : KnexBuilder
  client : Client
  relation : HasMany
  hookCalls : Nat
deriving DecidableEq

/-- `typeof relation.onQueryHook === 'function' && relation.onQueryHook(query)`
on a relation query builder.  The user hook itself is opaque; the builder
counts how many times it was invoked with it. -/
def invokeHookIfFunction (relation : HasMany) (q : HasManyQueryBuilder) :
    HasManyQueryBuilder :=
  match relation.onQueryHook with
  | some _ => { q with hookCalls := q.hookCalls + 1 }
  | none => q

/-- The same hook guard on a sub-query builder. -/
def invokeHookIfFunctionSub (relation : HasMany) (q : HasManySubQueryBuilder) :
    HasManySubQueryBuilder :=
  match relation.onQueryHook with
  | some _ => { q with hookCalls := q.hookCalls + 1 }
  | none => q

/-- `HasManyQueryClient`: the relation, the bound parent row and the client. -/
structure HasManyQueryClient where
  relation : HasMany
  parent : Ref
  client : Client
deriving DecidableEq

/-- Static `HasManyQueryClient.query(client, relation, row)`. -/
def HasManyQueryClient.queryStatic (client : Client) (relation : HasMany)
    (row : Ref) : HasManyQueryBuilder :=
  let query := HasManyQueryBuilder.make client.knexQuery client (.one row)
    relation false
  invokeHookIfFunction relation query

/-- Static `HasManyQueryClient.eagerQuery(client, relation, rows)`. -/
def HasManyQueryClient.eagerQuery (client : Client) (relation : HasMany)
    (rows : ParentOrParents) : HasManyQueryBuilder :=
  let query := HasManyQueryBuilder.make client.knexQuery client rows
    relation false
  let query := { query with isRelatedPreloadQuery := true }
  invokeHookIfFunction relation query

/-- Static `HasManyQueryClient.subQuery(client, relation)`. -/
def HasManyQueryClient.subQuery (client : Client) (relation : HasMany) :
    HasManySubQueryBuilder :=
  let query : HasManySubQueryBuilder :=
    { knexBuilder := client.knexQuery, client := client, relation := relation,
      hookCalls := 0 }
  invokeHookIfFunctionSub relation query

/-- Instance method `query()`. -/
def HasManyQueryClient.query (c : HasManyQueryClient) : HasManyQueryBuilder :=
  HasManyQueryClient.queryStatic c.client c.relation c.parent

/-- The unit of work of `save(related)` (the async closure handed to
`managedTransaction`). -/
def saveWork (c : HasManyQueryClient) (related : Ref) (trx : TrxId) (w : World) :
    World × Except OpError Unit :=
  match rowSave c.parent (setTrx c.parent trx w) with
  | (w, .error e) => (w, .error e)
  | (w, .ok _) =>
      match hydrateForPersistance c.relation c.parent related w with
      | (w, .error e) => (w, .error e)
      | (w, .ok _) => rowSave related (setTrx related trx w)

/-- `HasManyQueryClient.save(related)`. -/
def HasManyQueryClient.save (c : HasManyQueryClient) (related : Ref) :
    World → World × Except OpError Unit :=
  fun w =>
    managedTransaction (parentTrxOrClient w c.parent c.client) (saveWork c related) w

/-- The body of `saveMany`'s `for (let row of related)` loop. -/
def saveManyLoop (rel : HasMany) (parent : Ref) (trx : TrxId) :
    List Ref → World → World × Except OpError Unit
  | [], w => (w, .ok ())
  | row :: rest, w =>
      match hydrateForPersistance rel parent row w with
      | (w, .error e) => (w, .error e)
      | (w, .ok _) =>
          match rowSave row (setTrx row trx w) with
          | (w, .error e) => (w, .error e)
          | (w, .ok _) => saveManyLoop rel parent trx rest w

/-- The unit of work of `saveMany(related)`. -/
def saveManyWork (c : HasManyQueryClient) (related : List Ref) (trx : TrxId)
    (w : World) : World × Except OpError Unit :=
  match rowSave c.parent (setTrx c.parent trx w) with
  | (w, .error e) => (w, .error e)
  | (w, .ok _) => saveManyLoop c.relation c.parent trx related w

/-- `HasManyQueryClient.saveMany(related)`. -/
def HasManyQueryClient.saveMany (c : HasManyQueryClient) (related : List Ref) :
    World → World × Except OpError Unit :=
  fun w =>
    managedTransaction (parentTrxOrClient w c.parent c.client) (saveManyWork c related) w

/-- The unit of work of `create(values)`. -/
def createWork (c : HasManyQueryClient) (values : Ref) (trx : TrxId) (w : World) :
    World × Except OpError Ref :=
  match rowSave c.parent (setTrx c.parent trx w) with
  | (w, .error e) => (w, .error e)
  | (w, .ok _) =>
      match objAssignCopy values w with
      | (w, .error e) => (w, .error e)
      | (w, .ok valuesToPersist) =>
          match hydrateForPersistance c.relation c.parent valuesToPersist w with
          | (w, .error e) => (w, .error e)
          | (w, .ok _) => relatedCreate valuesToPersist trx w

/-- `HasManyQueryClient.create(values)`. -/
def HasManyQueryClient.create (c : HasManyQueryClient) (values : Ref) :
    World → World × Except OpError Ref :=
  fun w =>
    managedTransaction (parentTrxOrClient w c.parent c.client) (createWork c values) w

/-- The body of `createMany`'s `values.map(...)`: copy each payload and
hydrate the copy, returning the copies in payload order. -/
def copyAndHydrateAll (rel : HasMany) (parent : Ref) :
    List Ref → World → World × Except OpError (List Ref)
  | [], w => (w, .ok [])
  | v :: rest, w =>
      match objAssignCopy v w with
      | (w, .error e) => (w, .error e)
      | (w, .ok copy) =>
          match hydrateForPersistance rel parent copy w with
          | (w, .error e) => (w, .error e)
          | (w, .ok _) =>
              match copyAndHydrateAll rel parent rest w with
              | (w, .error e) => (w, .error e)
              | (w, .ok copies) => (w, .ok (copy :: copies))

/-- The unit of work of `createMany(values)`. -/
def createManyWork (c : HasManyQueryClient) (values : List Ref) (trx : TrxId)
    (w : World) : World × Except OpError (List Ref) :=
  match rowSave c.parent (setTrx c.parent trx w) with
  | (w, .error e) => (w, .error e)
  | (w, .ok _) =>
      match copyAndHydrateAll c.relation c.parent values w with
      | (w, .error e) => (w, .error e)
      | (w, .ok valuesToPersist) => relatedCreateMany valuesToPersist trx w

/-- `HasManyQueryClient.createMany(values)`. -/
def HasManyQueryClient.createMany (c : HasManyQueryClient) (values : List Ref) :
    World → World × Except OpError (List Ref) :=
  fun w =>
    managedTransaction (parentTrxOrClient w c.parent c.client) (createManyWork c values) w

/-- The unit of work of `firstOrCreate(search, savePayload)`. -/
def firstOrCreateWork (c : HasManyQueryClient) (search : Ref) (savePayload : Fields)
    (trx : TrxId) (w : World) : World × Except OpError Ref :=
  match rowSave c.parent (setTrx c.parent trx w) with
  | (w, .error e) => (w, .error e)
  | (w, .ok _) =>
      match objAssignCopy search w with
      | (w, .error e) => (w, .error e)
      | (w, .ok valuesToPersist) =>
          match hydrateForPersistance c.relation c.parent valuesToPersist w with
          | (w, .error e) => (w, .error e)
          | (w, .ok _) => relatedFirstOrCreate valuesToPersist savePayload trx w

/-- `HasManyQueryClient.firstOrCreate(search, savePayload)`. -/
def HasManyQueryClient.firstOrCreate (c : HasManyQueryClient) (search : Ref)
    (savePayload : Fields) : World → World × Except OpError Ref :=
  fun w =>
    managedTransaction (parentTrxOrClient w c.parent c.client)
      (firstOrCreateWork c search savePayload) w

/-- The unit of work of `updateOrCreate(search, updatePayload)`. -/
def updateOrCreateWork (c : HasManyQueryClient) (search : Ref) (updatePayload : Fields)
    (trx : TrxId) (w : World) : World × Except OpError Ref :=
  match rowSave c.parent (setTrx c.parent trx w) with
  | (w, .error e) => (w, .error e)
  | (w, .ok _) =>
      match objAssignCopy search w with
      | (w, .error e) => (w, .error e)
      | (w, .ok valuesToPersist) =>
          match hydrateForPersistance c.relation c.parent valuesToPersist w with
          | (w, .error e) => (w, .error e)
          | (w, .ok _) => relatedUpdateOrCreate valuesToPersist updatePayload trx w

/-- `HasManyQueryClient.updateOrCreate(search, updatePayload)`. -/
def HasManyQueryClient.updateOrCreate (c : HasManyQueryClient) (search : Ref)
    (updatePayload : Fields) : World → World × Except OpError Ref :=
  fun w =>
    managedTransaction (parentTrxOrClient w c.parent c.client)
      (updateOrCreateWork c search updatePayload) w

/-- The `predicate` argument of the batch upsert operations: `undefined`, one
field name, or an array of field names. -/
inductive PredicateArg where
  | undef
  | single (field : FieldName)
  | fieldList (fields : List FieldName)
deriving DecidableEq

/-- `Array.isArray(predicate) ? predicate : predicate ? [predicate] : []`
(a lone empty string is falsy in JavaScript, hence the guard). -/
def normalizePredicate : PredicateArg → List FieldName
  | .fieldList fs => fs
  | .single f => if f = "" then [] else [f]
  | .undef => []

/-- `payload.forEach((row) => hydrateForPersistance(parent, row))`. -/
def hydrateAll (rel : HasMany) (parent : Ref) :
    List Ref → World → World × Except OpError Unit
  | [], w => (w, .ok ())
  | row :: rest, w =>
      match hydrateForPersistance rel parent row w with
      | (w, .error e) => (w, .error e)
      | (w, .ok _) => hydrateAll rel parent rest w

/-- The unit of work of `fetchOrCreateMany(payload, predicate)`. -/
def fetchOrCreateManyWork (c : HasManyQueryClient) (payload : List Ref)
    (predicate : PredicateArg) (trx : TrxId) (w : World) :
    World × Except OpError (List Ref) :=
  match rowSave c.parent (setTrx c.parent trx w) with
  | (w, .error e) => (w, .error e)
  | (w, .ok _) =>
      match hydrateAll c.relation c.parent payload w with
      | (w, .error e) => (w, .error e)
      | (w, .ok _) =>
          relatedFetchOrCreateMany
            (normalizePredicate predicate ++ [c.relation.foreignKey]) payload trx w

/-- `HasManyQueryClient.fetchOrCreateMany(payload, predicate)`. -/
def HasManyQueryClient.fetchOrCreateMany (c : HasManyQueryClient)
    (payload : List Ref) (predicate : PredicateArg) :
    World → World × Except OpError (List Ref) :=
  fun w =>
    managedTransaction (parentTrxOrClient w c.parent c.client)
      (fetchOrCreateManyWork c payload predicate) w

/-- The unit of work of `updateOrCreateMany(payload, predicate)`. -/
def updateOrCreateManyWork (c : HasManyQueryClient) (payload : List Ref)
    (predicate : PredicateArg) (trx : TrxId) (w : World) :
    World × Except OpError (List Ref) :=
  match rowSave c.parent (setTrx c.parent trx w) with
  | (w, .error e) => (w, .error e)
  | (w, .ok _) =>
      match hydrateAll c.relation c.parent payload w with
      | (w, .error e) => (w, .error e)
      | (w, .ok _) =>
          relatedUpdateOrCreateMany
            (normalizePredicate predicate ++ [c.relation.foreignKey]) payload trx w

/-- `HasManyQueryClient.updateOrCreateMany(payload, predicate)`. -/
def HasManyQueryClient.updateOrCreateMany (c : HasManyQueryClient)
    (payload : List Ref) (predicate : PredicateArg) :
    World → World × Except OpError (List Ref) :=
  fun w =>
    managedTransaction (parentTrxOrClient w c.parent c.client)
      (updateOrCreateManyWork c payload predicate) w

/-! ## Heap and buffer lemmas -/

theorem lookupRef_append (l l2 : List (Ref × RowData)) (r : Ref) :
    lookupRef (l ++ l2) r
      = match lookupRef l r with
        | some d => some d
        | none => lookupRef l2 r := by
  induction l with
  | nil => simp [lookupRef]
  | cons p rest ih =>
      cases p with
      | mk r0 d0 => by_cases hr : r0 = r <;> simp [lookupRef, hr, ih]

theorem lookupRef_append_some {l l2 : List (Ref × RowData)} {r : Ref} {d : RowData}
    (h : lookupRef l r = some d) : lookupRef (l ++ l2) r = some d := by
  rw [lookupRef_append, h]

theorem lookupRef_updateRef_ne (l : List (Ref × RowData)) (key : Ref) (d : RowData)
    {r : Ref} (h : r ≠ key) : lookupRef (updateRef l key d) r = lookupRef l r := by
  induction l with
  | nil => simp [updateRef]
  | cons p rest ih =>
      cases p with
      | mk r0 d0 =>
          by_cases h0 : r0 = key
          · simp only [updateRef, if_pos h0]
            rw [h0]
            simp only [lookupRef, if_neg (Ne.symm h)]
          · simp only [updateRef, if_neg h0]
            by_cases h1 : r0 = r
            · simp only [lookupRef, if_pos h1]
            · simp only [lookupRef, if_neg h1, ih]

theorem updateRef_of_none (l : List (Ref × RowData)) (key : Ref) (d : RowData)
    (h : lookupRef l key = none) : updateRef l key d = l := by
  induction l with
  | nil => rfl
  | cons p rest ih =>
      cases p with
      | mk r0 d0 =>
          by_cases h0 : r0 = key
          · subst h0; simp [lookupRef] at h
          · simp only [lookupRef, if_neg h0] at h
            simp [updateRef, h0, ih h]

theorem lookupRef_updateRef_self (l : List (Ref × RowData)) (key : Ref) (d : RowData)
    {d0 : RowData} (h : lookupRef l key = some d0) :
    lookupRef (updateRef l key d) key = some d := by
  induction l with
  | nil => simp [lookupRef] at h
  | cons p rest ih =>
      cases p with
      | mk r0 dd =>
          by_cases h0 : r0 = key
          · subst h0; simp [updateRef, lookupRef]
          · simp only [lookupRef, if_neg h0] at h
            simp [updateRef, h0, lookupRef, ih h]

theorem map_fst_updateRef (l : List (Ref × RowData)) (key : Ref) (d : RowData) :
    (updateRef l key d).map Prod.fst = l.map Prod.fst := by
  induction l with
  | nil => rfl
  | cons p rest ih =>
      cases p with
      | mk r0 d0 =>
          by_cases h0 : r0 = key
          · subst h0; simp [updateRef]
          · simp [updateRef, h0, ih]

theorem refsClosed_mem_updateRef {l : List (Ref × RowData)} {key : Ref} {d : RowData}
    {n : Ref} (h : ∀ p ∈ l, p.1 < n) : ∀ p ∈ updateRef l key d, p.1 < n := by
  intro p hp
  have h1 : p.1 ∈ (updateRef l key d).map Prod.fst := List.mem_map_of_mem _ hp
  rw [map_fst_updateRef] at h1
  rcases List.mem_map.mp h1 with ⟨q, hq, hq1⟩
  exact hq1 ▸ h q hq

theorem lookupRef_none_of_ge {l : List (Ref × RowData)} {n : Ref}
    (h : ∀ p ∈ l, p.1 < n) {r : Ref} (hr : n ≤ r) : lookupRef l r = none := by
  induction l with
  | nil => rfl
  | cons p rest ih =>
      cases p with
      | mk r0 d0 =>
          have h0 : r0 < n := by simpa using h _ (List.mem_cons_self _ _)
          have hne : r0 ≠ r := Nat.ne_of_lt (Nat.lt_of_lt_of_le h0 hr)
          simp only [lookupRef, if_neg hne]
          exact ih fun q hq => h q (List.mem_cons_of_mem _ hq)

theorem removePending_addPending (l : List (TrxId × List PersistRecord))
    (tid : TrxId) (rec : PersistRecord) :
    removePending (addPending l tid rec) tid = removePending l tid := by
  induction l with
  | nil => simp [addPending, removePending]
  | cons p rest ih =>
      cases p with
      | mk t recs =>
          by_cases ht : t = tid
          · simp [addPending, if_pos ht, removePending, ht]
          · simp only [addPending, if_neg ht, removePending, if_neg ht, ih]

theorem removePending_of_closed {l : List (TrxId × List PersistRecord)} {n : TrxId}
    (h : ∀ p ∈ l, p.1 < n) : removePending l n = l := by
  induction l with
  | nil => rfl
  | cons p rest ih =>
      cases p with
      | mk t recs =>
          have h0 : t < n := by simpa using h _ (List.mem_cons_self _ _)
          have hne : t ≠ n := Nat.ne_of_lt h0
          simp only [removePending, if_neg hne]
          rw [ih fun q hq => h q (List.mem_cons_of_mem _ hq)]

theorem World.getRow_setRow_ne (w : World) (key : Ref) (d : RowData) {r : Ref}
    (h : r ≠ key) : (w.setRow key d).getRow r = w.getRow r :=
  lookupRef_updateRef_ne w.heap key d h

theorem World.getRow_setRow_self (w : World) (key : Ref) (d : RowData)
    {d0 : RowData} (h : w.getRow key = some d0) :
    (w.setRow key d).getRow key = some d :=
  lookupRef_updateRef_self w.heap key d h

theorem World.setRow_of_missing (w : World) (key : Ref) (d : RowData)
    (h : w.getRow key = none) : w.setRow key d = w := by
  unfold World.setRow
  rw [updateRef_of_none w.heap key d h]

theorem World.getRow_alloc_of_ne (w : World) (d : RowData) {r : Ref}
    (h : r ≠ w.nextRef) : (w.allocRow d).2.getRow r = w.getRow r := by
  show lookupRef (w.heap ++ [(w.nextRef, d)]) r = lookupRef w.heap r
  rw [lookupRef_append]
  cases hl : lookupRef w.heap r with
  | some d0 => rfl
  | none => simp only [lookupRef, if_neg (Ne.symm h)]

theorem World.getRow_alloc_self (w : World) (d : RowData) (h : w.refsClosed) :
    (w.allocRow d).2.getRow w.nextRef = some d := by
  show lookupRef (w.heap ++ [(w.nextRef, d)]) w.nextRef = some d
  rw [lookupRef_append, lookupRef_none_of_ge h (le_refl _)]
  simp [lookupRef]

theorem World.refsClosed_setRow (w : World) (key : Ref) (d : RowData)
    (h : w.refsClosed) : (w.setRow key d).refsClosed :=
  refsClosed_mem_updateRef h

theorem World.refsClosed_alloc (w : World) (d : RowData) (h : w.refsClosed) :
    (w.allocRow d).2.refsClosed := by
  intro p hp
  show p.1 < w.nextRef + 1
  rcases List.mem_append.mp hp with hp | hp
  · exact Nat.lt_succ_of_lt (h p hp)
  · have h1 : p = (w.nextRef, d) := by simpa using hp
    rw [h1]
    exact Nat.lt_succ_self _

/-! ## Scoped-step invariant -/

/-- An event is inside the scope of transaction `t`: a persistence round trip
or a collaborator call under `t` — in particular never a begin, commit or
rollback. -/
def Event.scopedTo (t : TrxId) : Event → Prop
  | .persist _ tr => tr = some t
  | .relatedCall _ _ _ tr => tr = t
  | .trxBegin _ => False
  | .trxCommit _ => False
  | .trxRollback _ => False

/-- What every step of a unit of work run under handle `t` preserves:
it appends only events scoped to `t` (so it never commits or rolls back),
writes nothing durable, touches no other transaction's buffer, keeps every
row already attached to `t` attached to it, and respects the heap allocator. -/
structure ScopedStep (t : TrxId) (w w' : World) : Prop where
  events_mono : ∃ es, w'.events = w.events ++ es ∧ ∀ e ∈ es, e.scopedTo t
  committed_eq : w'.committed = w.committed
  pending_eq : removePending w'.pending t = removePending w.pending t
  trx_mono : ∀ r, w.rowTrx r = some t → w'.rowTrx r = some t
  refs_closed : w'.refsClosed
  next_le : w.nextRef ≤ w'.nextRef

/-- A step is scoped provided the starting heap is well formed. -/
def StepOK (t : TrxId) (w w' : World) : Prop :=
  w.refsClosed → ScopedStep t w w'

theorem StepOK.refl (t : TrxId) (w : World) : StepOK t w w := by
  intro h
  exact ⟨⟨[], by simp⟩, rfl, rfl, fun _ h => h, h, le_refl _⟩

theorem StepOK.trans {t : TrxId} {w w1 w2 : World}
    (h1 : StepOK t w w1) (h2 : StepOK t w1 w2) : StepOK t w w2 := by
  intro h
  have s1 := h1 h
  have s2 := h2 s1.refs_closed
  refine ⟨?_, ?_, ?_, ?_, s2.refs_closed, le_trans s1.next_le s2.next_le⟩
  · rcases s1.events_mono with ⟨es1, he1, hs1⟩
    rcases s2.events_mono with ⟨es2, he2, hs2⟩
    refine ⟨es1 ++ es2, by rw [he2, he1, List.append_assoc], ?_⟩
    intro e he
    rcases List.mem_append.mp he with he | he
    · exact hs1 e he
    · exact hs2 e he
  · rw [s2.committed_eq, s1.committed_eq]
  · rw [s2.pending_eq, s1.pending_eq]
  · intro r hr
    exact s2.trx_mono r (s1.trx_mono r hr)

/-! ## Step lemmas for the operation primitives -/

theorem mem_of_lookupRef {l : List (Ref × RowData)} {r : Ref} {d : RowData}
    (h : lookupRef l r = some d) : (r, d) ∈ l := by
  induction l with
  | nil => simp [lookupRef] at h
  | cons p rest ih =>
      cases p with
      | mk r0 d0 =>
          by_cases h0 : r0 = r
          · simp only [lookupRef, if_pos h0] at h
            rw [h0]
            rw [Option.some_inj] at h
            rw [h]
            exact List.mem_cons_self _ _
          · simp only [lookupRef, if_neg h0] at h
            exact List.mem_cons_of_mem _ (ih h)

theorem World.lt_nextRef_of_getRow (w : World) {r : Ref} {d : RowData}
    (hc : w.refsClosed) (h : w.getRow r = some d) : r < w.nextRef := by
  have := hc _ (mem_of_lookupRef h)
  simpa using this

theorem World.rowTrx_eq_of_heap_eq {w w' : World} (h : w'.heap = w.heap) (r : Ref) :
    w'.rowTrx r = w.rowTrx r := by
  unfold World.rowTrx World.getRow
  rw [h]

theorem World.hasRow_eq_of_heap_eq {w w' : World} (h : w'.heap = w.heap) (r : Ref) :
    w'.hasRow r ↔ w.hasRow r := by
  unfold World.hasRow World.getRow
  rw [h]

/-- A step that only touches the fault budget (or nothing) is scoped. -/
theorem stepOK_of_eq (t : TrxId) {w w' : World} (hh : w'.heap = w.heap)
    (hc : w'.committed = w.committed) (hp : w'.pending = w.pending)
    (he : w'.events = w.events) (hn : w'.nextRef = w.nextRef) : StepOK t w w' := by
  intro h
  refine ⟨⟨[], by simp [he], by simp⟩, hc, by rw [hp], ?_, ?_, le_of_eq hn.symm⟩
  · intro r hr
    rw [World.rowTrx_eq_of_heap_eq hh]
    exact hr
  · intro p hmem
    rw [hn]
    apply h
    rw [← hh]
    exact hmem

theorem consumeBudget_eqs (w : World) :
    (w.consumeBudget).1.heap = w.heap ∧ (w.consumeBudget).1.committed = w.committed ∧
    (w.consumeBudget).1.pending = w.pending ∧ (w.consumeBudget).1.events = w.events ∧
    (w.consumeBudget).1.nextTrx = w.nextTrx ∧ (w.consumeBudget).1.nextRef = w.nextRef := by
  unfold World.consumeBudget
  cases hb : w.persistBudget with
  | none => simp
  | some m => cases m <;> simp

theorem stepOK_consumeBudget (t : TrxId) (w : World) : StepOK t w (w.consumeBudget).1 := by
  have h := consumeBudget_eqs w
  exact stepOK_of_eq t h.1 h.2.1 h.2.2.1 h.2.2.2.1 h.2.2.2.2.2

theorem stepOK_recordPersist_some (t : TrxId) (rec : PersistRecord) (w : World) :
    StepOK t w (w.recordPersist rec (some t)) := by
  intro h
  refine ⟨⟨[.persist rec (some t)], rfl, ?_⟩, rfl, ?_, ?_, h, le_refl _⟩
  · intro e he
    rw [List.mem_singleton] at he
    rw [he]
    exact rfl
  · exact removePending_addPending w.pending t rec
  · intro r hr
    exact hr

theorem stepOK_setRow (t : TrxId) (w : World) (key : Ref) (d : RowData)
    (hd : ∀ row, w.getRow key = some row → row.trx = some t → d.trx = some t) :
    StepOK t w (w.setRow key d) := by
  intro h
  refine ⟨⟨[], by simp [World.setRow]⟩, rfl, rfl, ?_, w.refsClosed_setRow key d h, le_refl _⟩
  intro r' hr'
  by_cases he : r' = key
  · subst he
    unfold World.rowTrx at hr' ⊢
    cases hg : w.getRow r' with
    | none => rw [hg] at hr'; exact absurd hr' (by simp)
    | some row =>
        rw [hg] at hr'
        rw [World.getRow_setRow_self w r' d hg]
        exact hd row hg hr'
  · unfold World.rowTrx at hr' ⊢
    rw [World.getRow_setRow_ne w key d he]
    exact hr'

theorem stepOK_alloc (t : TrxId) (w : World) (d : RowData) :
    StepOK t w (w.allocRow d).2 := by
  intro h
  refine ⟨⟨[], by simp [World.allocRow]⟩, rfl, rfl, ?_, w.refsClosed_alloc d h, Nat.le_succ _⟩
  intro r' hr'
  unfold World.rowTrx at hr' ⊢
  cases hg : w.getRow r' with
  | none => rw [hg] at hr'; exact absurd hr' (by simp)
  | some row =>
      rw [hg] at hr'
      have hlt : r' < w.nextRef := w.lt_nextRef_of_getRow h hg
      rw [World.getRow_alloc_of_ne w d (Nat.ne_of_lt hlt), hg]
      exact hr'

theorem stepOK_setTrx (r : Ref) (t : TrxId) (w : World) : StepOK t w (setTrx r t w) := by
  unfold setTrx
  cases hg : w.getRow r with
  | none => exact StepOK.refl t w
  | some row =>
      exact stepOK_setRow t w r { row with trx := some t } (fun _ _ _ => rfl)

/-- After `setTrx` the target row carries the handle (whenever it exists). -/
theorem setTrx_rowTrx (r : Ref) (t : TrxId) (w : World) (h : w.hasRow r) :
    (setTrx r t w).rowTrx r = some t := by
  unfold World.hasRow at h
  unfold setTrx World.rowTrx
  cases hg : w.getRow r with
  | none => rw [hg] at h; simp at h
  | some row => rw [World.getRow_setRow_self w r _ hg]

theorem setTrx_events (r : Ref) (t : TrxId) (w : World) :
    (setTrx r t w).events = w.events := by
  unfold setTrx
  cases w.getRow r <;> rfl

theorem setTrx_hasRow (r : Ref) (t : TrxId) (w : World) (r' : Ref) (h : w.hasRow r') :
    (setTrx r t w).hasRow r' := by
  unfold World.hasRow at h ⊢
  unfold setTrx
  cases hg : w.getRow r with
  | none => exact h
  | some row =>
      by_cases he : r' = r
      · subst he
        rw [World.getRow_setRow_self w r' _ hg]
        rfl
      · rw [World.getRow_setRow_ne w r _ he]
        exact h

/-- Success analysis of `rowSave`: the budget allowed the round trip and the
final world is the in-memory update followed by the recorded persist of the
merged attributes under the row's `$trx` slot. -/
theorem rowSave_ok_spec {r : Ref} {w w' : World} {u : Unit}
    (h : rowSave r w = (w', .ok u)) :
    ∃ row, w.getRow r = some row ∧
      w' = ((w.consumeBudget).1.setRow r
              ⟨mergeFields row.attributes row.generatedOnSave, [], row.trx, true⟩).recordPersist
              ⟨r, mergeFields row.attributes row.generatedOnSave⟩ row.trx := by
  unfold rowSave at h
  cases hg : w.getRow r with
  | none => rw [hg] at h; exact absurd h (by simp)
  | some row =>
      rw [hg] at h
      refine ⟨row, rfl, ?_⟩
      cases hc : w.consumeBudget with
      | mk w1 flag =>
          rw [hc] at h
          cases flag with
          | false => exact absurd h (by simp)
          | true => exact (congrArg Prod.fst h).symm

/-- Failure analysis of `rowSave`: nothing observable happened. -/
theorem rowSave_error_spec {r : Ref} {w w' : World} {e : OpError}
    (h : rowSave r w = (w', .error e)) :
    w'.heap = w.heap ∧ w'.committed = w.committed ∧ w'.pending = w.pending ∧
    w'.events = w.events ∧ w'.nextTrx = w.nextTrx ∧ w'.nextRef = w.nextRef := by
  unfold rowSave at h
  cases hg : w.getRow r with
  | none =>
      rw [hg] at h
      have hw : w' = w := by
        have := congrArg Prod.fst h
        exact this.symm
      rw [hw]
      exact ⟨rfl, rfl, rfl, rfl, rfl, rfl⟩
  | some row =>
      rw [hg] at h
      cases hc : w.consumeBudget with
      | mk w1 flag =>
          rw [hc] at h
          cases flag with
          | true => exact absurd h (by simp)
          | false =>
              have hw : w' = w1 := (congrArg Prod.fst h).symm
              have h1 : w1 = (w.consumeBudget).1 := by rw [hc]
              have he := consumeBudget_eqs w
              rw [hw, h1]
              exact ⟨he.1, he.2.1, he.2.2.1, he.2.2.2.1, he.2.2.2.2.1, he.2.2.2.2.2⟩

theorem stepOK_rowSave {r : Ref} {t : TrxId} {w : World}
    (h : w.rowTrx r = some t) : StepOK t w (rowSave r w).1 := by
  cases hg : w.getRow r with
  | none =>
      unfold World.rowTrx at h
      rw [hg] at h
      exact absurd h (by simp)
  | some row =>
      have h : row.trx = some t := by
        unfold World.rowTrx at h
        rw [hg] at h
        exact h
      unfold rowSave
      rw [hg]
      cases hc : w.consumeBudget with
      | mk w1 flag =>
          have h1 : w1 = (w.consumeBudget).1 := by rw [hc]
          have hstep1 : StepOK t w w1 := by rw [h1]; exact stepOK_consumeBudget t w
          cases flag with
          | false => exact hstep1
          | true =>
              have heq := consumeBudget_eqs w
              have hg1 : w1.getRow r = some row := by
                rw [h1]
                show lookupRef (w.consumeBudget).1.heap r = some row
                rw [heq.1]
                exact hg
              have hstep2 : StepOK t w1
                  (w1.setRow r ⟨mergeFields row.attributes row.generatedOnSave, [], row.trx, true⟩) := by
                apply stepOK_setRow
                intro row' hrow' htrx'
                rw [hg1] at hrow'
                rw [Option.some_inj] at hrow'
                rw [← hrow'] at htrx'
                exact htrx'
              have hstep3 : StepOK t
                  (w1.setRow r ⟨mergeFields row.attributes row.generatedOnSave, [], row.trx, true⟩)
                  ((w1.setRow r ⟨mergeFields row.attributes row.generatedOnSave, [], row.trx, true⟩).recordPersist
                    ⟨r, mergeFields row.attributes row.generatedOnSave⟩ row.trx) := by
                rw [h]
                exact stepOK_recordPersist_some t _ _
              exact (hstep1.trans hstep2).trans hstep3

/-! ## Step lemmas for composites and loops -/

theorem setTrx_of_missing (r : Ref) (t : TrxId) (w : World) (h : w.getRow r = none) :
    setTrx r t w = w := by
  unfold setTrx
  rw [h]

theorem rowSave_of_missing (r : Ref) (w : World) (h : w.getRow r = none) :
    rowSave r w = (w, .error .missingRow) := by
  unfold rowSave
  rw [h]

theorem setRow_events_eq (w : World) (r : Ref) (d : RowData) :
    (w.setRow r d).events = w.events := rfl

theorem recordPersist_events (w : World) (rec : PersistRecord) (t : Option TrxId) :
    (w.recordPersist rec t).events = w.events ++ [.persist rec t] := by
  unfold World.recordPersist
  cases t <;> rfl

theorem setTrx_getRow_self (r : Ref) (t : TrxId) (w : World) {row : RowData}
    (h : (setTrx r t w).getRow r = some row) : row.trx = some t := by
  cases hg : w.getRow r with
  | none =>
      rw [setTrx_of_missing r t w hg] at h
      rw [hg] at h
      exact Option.noConfusion h
  | some row0 =>
      have hs : setTrx r t w = w.setRow r { row0 with trx := some t } := by
        unfold setTrx
        rw [hg]
      rw [hs] at h
      rw [World.getRow_setRow_self w r _ hg] at h
      have h2 := Option.some_inj.mp h
      rw [← h2]

theorem stepOK_setTrxSave (r : Ref) (t : TrxId) (w : World) :
    StepOK t w (rowSave r (setTrx r t w)).1 := by
  refine (stepOK_setTrx r t w).trans ?_
  cases hg : w.getRow r with
  | none =>
      rw [setTrx_of_missing r t w hg, rowSave_of_missing r w hg]
      exact StepOK.refl t w
  | some row =>
      apply stepOK_rowSave
      apply setTrx_rowTrx
      unfold World.hasRow
      rw [hg]
      rfl

theorem setTrxSave_ok_events {r : Ref} {t : TrxId} {w w' : World} {u : Unit}
    (h : rowSave r (setTrx r t w) = (w', .ok u)) :
    ∃ rec : PersistRecord, rec.ref = r ∧
      w'.events = w.events ++ [Event.persist rec (some t)] := by
  rcases rowSave_ok_spec h with ⟨row, hrow, hw'⟩
  have htrx : row.trx = some t := setTrx_getRow_self r t w hrow
  refine ⟨⟨r, mergeFields row.attributes row.generatedOnSave⟩, rfl, ?_⟩
  rw [hw', htrx, recordPersist_events, setRow_events_eq,
    (consumeBudget_eqs _).2.2.2.1, setTrx_events]

theorem setTrxSave_error_events {r : Ref} {t : TrxId} {w w' : World} {e : OpError}
    (h : rowSave r (setTrx r t w) = (w', .error e)) : w'.events = w.events := by
  rw [(rowSave_error_spec h).2.2.2.1, setTrx_events]

theorem stepOK_hydrate (t : TrxId) (rel : HasMany) (p c : Ref) (w : World) :
    StepOK t w (hydrateForPersistance rel p c w).1 := by
  unfold hydrateForPersistance
  cases hv : getValue w p rel.localKey with
  | error e => exact StepOK.refl t w
  | ok v =>
      cases hg : w.getRow c with
      | none => exact StepOK.refl t w
      | some cd =>
          apply stepOK_setRow
          intro row hrow htrx
          rw [hg] at hrow
          have hcd := Option.some_inj.mp hrow
          show cd.trx = some t
          rw [hcd]
          exact htrx

theorem hydrate_events (rel : HasMany) (p c : Ref) (w : World) :
    (hydrateForPersistance rel p c w).1.events = w.events := by
  unfold hydrateForPersistance
  cases hv : getValue w p rel.localKey with
  | error e => rfl
  | ok v =>
      cases hg : w.getRow c with
      | none => rfl
      | some cd => rfl

theorem stepOK_objAssignCopy (t : TrxId) (src : Ref) (w : World) :
    StepOK t w (objAssignCopy src w).1 := by
  unfold objAssignCopy
  cases hg : w.getRow src with
  | none => exact StepOK.refl t w
  | some d => exact stepOK_alloc t w _

theorem stepOK_createRow (attrs : Fields) (t : TrxId) (w : World) :
    StepOK t w (createRow attrs t w).1 := by
  intro h
  have h1 : StepOK t w (w.allocRow ⟨attrs, [], some t, false⟩).2 := stepOK_alloc t w _
  have htrx : (w.allocRow ⟨attrs, [], some t, false⟩).2.rowTrx w.nextRef = some t := by
    unfold World.rowTrx
    rw [World.getRow_alloc_self w _ h]
  have h3 := (h1.trans (stepOK_rowSave htrx)) h
  unfold createRow
  cases hs : rowSave w.nextRef (w.allocRow ⟨attrs, [], some t, false⟩).2 with
  | mk w2 res =>
      rw [hs] at h3
      cases res <;> exact h3

theorem stepOK_tryPersist_some (rec : PersistRecord) (t : TrxId) (w : World) :
    StepOK t w (tryPersist rec (some t) w).1 := by
  unfold tryPersist
  cases hc : w.consumeBudget with
  | mk w1 flag =>
      have h1 : StepOK t w w1 := by
        have he : w1 = (w.consumeBudget).1 := by rw [hc]
        rw [he]
        exact stepOK_consumeBudget t w
      cases flag with
      | false => exact h1
      | true => exact h1.trans (stepOK_recordPersist_some t rec w1)

theorem stepOK_recordRelatedCall (t : TrxId) (w : World) (name : String)
    (fields : List FieldName) (payloads : List Fields) :
    StepOK t w (w.recordRelatedCall name fields payloads t) := by
  intro h
  refine ⟨⟨[.relatedCall name fields payloads t], rfl, ?_⟩, rfl, rfl, ?_, h, le_refl _⟩
  · intro e he
    rw [List.mem_singleton] at he
    rw [he]
    exact rfl
  · intro r hr
    exact hr

theorem stepOK_relatedCreate (v : Ref) (t : TrxId) (w : World) :
    StepOK t w (relatedCreate v t w).1 := by
  unfold relatedCreate
  cases hg : w.getRow v with
  | none => exact StepOK.refl t w
  | some payload => exact stepOK_createRow payload.attributes t w

theorem stepOK_relatedCreateMany (t : TrxId) (vals : List Ref) :
    ∀ w, StepOK t w (relatedCreateMany vals t w).1 := by
  induction vals with
  | nil => intro w; exact StepOK.refl t w
  | cons v rest ih =>
      intro w
      unfold relatedCreateMany
      split
      next w1 e heq =>
          have s1 : StepOK t w w1 := by
            have he : w1 = (relatedCreate v t w).1 := by rw [heq]
            rw [he]
            exact stepOK_relatedCreate v t w
          exact s1
      next w1 r heq =>
          have s1 : StepOK t w w1 := by
            have he : w1 = (relatedCreate v t w).1 := by rw [heq]
            rw [he]
            exact stepOK_relatedCreate v t w
          split
          next w2 e2 heq2 =>
              have s2 : StepOK t w1 w2 := by
                have he : w2 = (relatedCreateMany rest t w1).1 := by rw [heq2]
                rw [he]
                exact ih w1
              exact s1.trans s2
          next w2 rs heq2 =>
              have s2 : StepOK t w1 w2 := by
                have he : w2 = (relatedCreateMany rest t w1).1 := by rw [heq2]
                rw [he]
                exact ih w1
              exact s1.trans s2

theorem stepOK_saveManyLoop (rel : HasMany) (parent : Ref) (t : TrxId)
    (rows : List Ref) : ∀ w, StepOK t w (saveManyLoop rel parent t rows w).1 := by
  induction rows with
  | nil => intro w; exact StepOK.refl t w
  | cons row rest ih =>
      intro w
      unfold saveManyLoop
      split
      next w1 e heq =>
          have he : w1 = (hydrateForPersistance rel parent row w).1 := by rw [heq]
          rw [he]
          exact stepOK_hydrate t rel parent row w
      next w1 u heq =>
          have s1 : StepOK t w w1 := by
            have he : w1 = (hydrateForPersistance rel parent row w).1 := by rw [heq]
            rw [he]
            exact stepOK_hydrate t rel parent row w
          split
          next w2 e2 heq2 =>
              have s2 : StepOK t w1 w2 := by
                have he : w2 = (rowSave row (setTrx row t w1)).1 := by rw [heq2]
                rw [he]
                exact stepOK_setTrxSave row t w1
              exact s1.trans s2
          next w2 u2 heq2 =>
              have s2 : StepOK t w1 w2 := by
                have he : w2 = (rowSave row (setTrx row t w1)).1 := by rw [heq2]
                rw [he]
                exact stepOK_setTrxSave row t w1
              exact (s1.trans s2).trans (ih w2)

theorem stepOK_copyAndHydrateAll (rel : HasMany) (parent : Ref) (t : TrxId)
    (vals : List Ref) : ∀ w, StepOK t w (copyAndHydrateAll rel parent vals w).1 := by
  induction vals with
  | nil => intro w; exact StepOK.refl t w
  | cons v rest ih =>
      intro w
      unfold copyAndHydrateAll
      split
      next w1 e heq =>
          have he : w1 = (objAssignCopy v w).1 := by rw [heq]
          rw [he]
          exact stepOK_objAssignCopy t v w
      next w1 copy heq =>
          have s1 : StepOK t w w1 := by
            have he : w1 = (objAssignCopy v w).1 := by rw [heq]
            rw [he]
            exact stepOK_objAssignCopy t v w
          split
          next w2 e2 heq2 =>
              have s2 : StepOK t w1 w2 := by
                have he : w2 = (hydrateForPersistance rel parent copy w1).1 := by rw [heq2]
                rw [he]
                exact stepOK_hydrate t rel parent copy w1
              exact s1.trans s2
          next w2 u heq2 =>
              have s2 : StepOK t w1 w2 := by
                have he : w2 = (hydrateForPersistance rel parent copy w1).1 := by rw [heq2]
                rw [he]
                exact stepOK_hydrate t rel parent copy w1
              split
              next w3 e3 heq3 =>
                  have s3 : StepOK t w2 w3 := by
                    have he : w3 = (copyAndHydrateAll rel parent rest w2).1 := by rw [heq3]
                    rw [he]
                    exact ih w2
                  exact (s1.trans s2).trans s3
              next w3 copies heq3 =>
                  have s3 : StepOK t w2 w3 := by
                    have he : w3 = (copyAndHydrateAll rel parent rest w2).1 := by rw [heq3]
                    rw [he]
                    exact ih w2
                  exact (s1.trans s2).trans s3

theorem stepOK_hydrateAll (rel : HasMany) (parent : Ref) (t : TrxId)
    (rows : List Ref) : ∀ w, StepOK t w (hydrateAll rel parent rows w).1 := by
  induction rows with
  | nil => intro w; exact StepOK.refl t w
  | cons row rest ih =>
      intro w
      unfold hydrateAll
      split
      next w1 e heq =>
          have he : w1 = (hydrateForPersistance rel parent row w).1 := by rw [heq]
          rw [he]
          exact stepOK_hydrate t rel parent row w
      next w1 u heq =>
          have s1 : StepOK t w w1 := by
            have he : w1 = (hydrateForPersistance rel parent row w).1 := by rw [heq]
            rw [he]
            exact stepOK_hydrate t rel parent row w
          exact s1.trans (ih w1)

theorem stepOK_fetchOrCreateOne (fields : List FieldName) (v : Ref) (t : TrxId)
    (w : World) : StepOK t w (fetchOrCreateOne fields v t w).1 := by
  unfold fetchOrCreateOne
  split
  · exact StepOK.refl t w
  · split
    · exact StepOK.refl t w
    · exact stepOK_createRow _ t w

theorem stepOK_updateOrCreateOne (fields : List FieldName) (v : Ref) (t : TrxId)
    (w : World) : StepOK t w (updateOrCreateOne fields v t w).1 := by
  unfold updateOrCreateOne
  split
  · exact StepOK.refl t w
  · split
    · split
      all_goals
        rename_i w2 res heq
        rw [← congrArg Prod.fst heq]
        exact stepOK_tryPersist_some _ t w
    · exact stepOK_createRow _ t w

theorem stepOK_fetchOrCreateLoop (fields : List FieldName) (t : TrxId)
    (payload : List Ref) : ∀ w, StepOK t w (fetchOrCreateLoop fields payload t w).1 := by
  induction payload with
  | nil => intro w; exact StepOK.refl t w
  | cons v rest ih =>
      intro w
      unfold fetchOrCreateLoop
      split
      next w1 e heq =>
          have he : w1 = (fetchOrCreateOne fields v t w).1 := by rw [heq]
          rw [he]
          exact stepOK_fetchOrCreateOne fields v t w
      next w1 r heq =>
          have s1 : StepOK t w w1 := by
            have he : w1 = (fetchOrCreateOne fields v t w).1 := by rw [heq]
            rw [he]
            exact stepOK_fetchOrCreateOne fields v t w
          split
          next w2 e2 heq2 =>
              have s2 : StepOK t w1 w2 := by
                have he : w2 = (fetchOrCreateLoop fields rest t w1).1 := by rw [heq2]
                rw [he]
                exact ih w1
              exact s1.trans s2
          next w2 rs heq2 =>
              have s2 : StepOK t w1 w2 := by
                have he : w2 = (fetchOrCreateLoop fields rest t w1).1 := by rw [heq2]
                rw [he]
                exact ih w1
              exact s1.trans s2

theorem stepOK_updateOrCreateLoop (fields : List FieldName) (t : TrxId)
    (payload : List Ref) : ∀ w, StepOK t w (updateOrCreateLoop fields payload t w).1 := by
  induction payload with
  | nil => intro w; exact StepOK.refl t w
  | cons v rest ih =>
      intro w
      unfold updateOrCreateLoop
      split
      next w1 e heq =>
          have he : w1 = (updateOrCreateOne fields v t w).1 := by rw [heq]
          rw [he]
          exact stepOK_updateOrCreateOne fields v t w
      next w1 r heq =>
          have s1 : StepOK t w w1 := by
            have he : w1 = (updateOrCreateOne fields v t w).1 := by rw [heq]
            rw [he]
            exact stepOK_updateOrCreateOne fields v t w
          split
          next w2 e2 heq2 =>
              have s2 : StepOK t w1 w2 := by
                have he : w2 = (updateOrCreateLoop fields rest t w1).1 := by rw [heq2]
                rw [he]
                exact ih w1
              exact s1.trans s2
          next w2 rs heq2 =>
              have s2 : StepOK t w1 w2 := by
                have he : w2 = (updateOrCreateLoop fields rest t w1).1 := by rw [heq2]
                rw [he]
                exact ih w1
              exact s1.trans s2

theorem stepOK_relatedFetchOrCreateMany (fields : List FieldName) (payload : List Ref)
    (t : TrxId) (w : World) : StepOK t w (relatedFetchOrCreateMany fields payload t w).1 :=
  (stepOK_recordRelatedCall t w "fetchOrCreateMany" fields (payloadAttrs w payload)).trans
    (stepOK_fetchOrCreateLoop fields t payload _)

theorem stepOK_relatedUpdateOrCreateMany (fields : List FieldName) (payload : List Ref)
    (t : TrxId) (w : World) : StepOK t w (relatedUpdateOrCreateMany fields payload t w).1 :=
  (stepOK_recordRelatedCall t w "updateOrCreateMany" fields (payloadAttrs w payload)).trans
    (stepOK_updateOrCreateLoop fields t payload _)

theorem stepOK_relatedFirstOrCreate (search : Ref) (savePayload : Fields) (t : TrxId)
    (w : World) : StepOK t w (relatedFirstOrCreate search savePayload t w).1 := by
  unfold relatedFirstOrCreate
  split
  · exact StepOK.refl t w
  · split
    · exact StepOK.refl t w
    · exact stepOK_createRow _ t w

theorem stepOK_relatedUpdateOrCreate (search : Ref) (updatePayload : Fields) (t : TrxId)
    (w : World) : StepOK t w (relatedUpdateOrCreate search updatePayload t w).1 := by
  unfold relatedUpdateOrCreate
  split
  · exact StepOK.refl t w
  · split
    · split
      all_goals
        rename_i w2 res heq
        rw [← congrArg Prod.fst heq]
        exact stepOK_tryPersist_some _ t w
    · exact stepOK_createRow _ t w

/-! ## Units of work and the managed transaction -/

theorem beginTrx_events (w : World) :
    (w.beginTrx).2.events = w.events ++ [.trxBegin w.nextTrx] := rfl

theorem commitTrx_events (w : World) (t : TrxId) :
    (w.commitTrx t).events = w.events ++ [.trxCommit t] := rfl

theorem rollbackTrx_events (w : World) (t : TrxId) :
    (w.rollbackTrx t).events = w.events ++ [.trxRollback t] := rfl

theorem removePending_append (l1 l2 : List (TrxId × List PersistRecord)) (t : TrxId) :
    removePending (l1 ++ l2) t = removePending l1 t ++ removePending l2 t := by
  induction l1 with
  | nil => rfl
  | cons p rest ih =>
      cases p with
      | mk t0 recs =>
          by_cases h0 : t0 = t
          · simp only [List.cons_append, removePending, if_pos h0]
            exact ih
          · simp only [List.cons_append, removePending, if_neg h0]
            exact congrArg (List.cons (t0, recs)) ih

/-- What every unit of work handed to `managedTransaction` satisfies: it is a
scoped step under its handle, it pins the parent's `$trx` slot to the handle,
and the first event it appends — if any — is the parent's own persist. -/
def WorkOK {A : Type} (parent : Ref)
    (work : TrxId → World → World × Except OpError A) : Prop :=
  ∀ t w, w.refsClosed →
    ScopedStep t w (work t w).1 ∧
    (w.hasRow parent → (work t w).1.rowTrx parent = some t) ∧
    ∃ es, (work t w).1.events = w.events ++ es ∧
      (es = [] ∨ ∃ rec rest, es = Event.persist rec (some t) :: rest ∧ rec.ref = parent)

/-- Every operation's unit of work has the same head: pin the parent's `$trx`
slot, persist the parent, then run the operation-specific tail. -/
theorem workOK_of_tail {A : Type} (parent : Ref)
    (tail : TrxId → World → World × Except OpError A)
    (work : TrxId → World → World × Except OpError A)
    (htail : ∀ t w1, StepOK t w1 (tail t w1).1)
    (hwork : ∀ t w, work t w
        = match rowSave parent (setTrx parent t w) with
          | (w1, .error e) => (w1, .error e)
          | (w1, .ok _) => tail t w1) :
    WorkOK parent work := by
  intro t w hrc
  rw [hwork]
  cases hs : rowSave parent (setTrx parent t w) with
  | mk w1 res =>
      have hsetrc : (setTrx parent t w).refsClosed :=
        ((stepOK_setTrx parent t w) hrc).refs_closed
      have s0 : StepOK t w w1 := by
        have hx := stepOK_setTrxSave parent t w
        rw [hs] at hx
        exact hx
      cases res with
      | error e =>
          refine ⟨s0 hrc, ?_, [], ?_, Or.inl rfl⟩
          · intro hhas
            have h0 : (setTrx parent t w).rowTrx parent = some t :=
              setTrx_rowTrx parent t w hhas
            have hh := rowSave_error_spec hs
            show w1.rowTrx parent = some t
            rw [World.rowTrx_eq_of_heap_eq hh.1 parent]
            exact h0
          · show w1.events = w.events ++ []
            rw [List.append_nil]
            exact setTrxSave_error_events hs
      | ok u =>
          have ssave : ScopedStep t (setTrx parent t w) w1 := by
            have hx := stepOK_setTrxSave parent t w
            have hy : StepOK t (setTrx parent t w) w1 := by
              cases hg : w.getRow parent with
              | none =>
                  have hmiss : (setTrx parent t w).getRow parent = none := by
                    rw [setTrx_of_missing parent t w hg]
                    exact hg
                  rw [rowSave_of_missing parent _ hmiss] at hs
                  exact absurd hs (by simp)
              | some row =>
                  have hhas : w.hasRow parent := by
                    unfold World.hasRow
                    rw [hg]
                    rfl
                  have h0 : (setTrx parent t w).rowTrx parent = some t :=
                    setTrx_rowTrx parent t w hhas
                  have hz := stepOK_rowSave h0
                  rw [hs] at hz
                  exact hz
            exact hy hsetrc
          have s1 : ScopedStep t w1 (tail t w1).1 := (htail t w1) ssave.refs_closed
          refine ⟨(s0.trans (htail t w1)) hrc, ?_, ?_⟩
          · intro hhas
            have h0 : (setTrx parent t w).rowTrx parent = some t :=
              setTrx_rowTrx parent t w hhas
            have h1 : w1.rowTrx parent = some t := ssave.trx_mono parent h0
            exact s1.trx_mono parent h1
          · rcases setTrxSave_ok_events hs with ⟨rec, href, hev⟩
            rcases s1.events_mono with ⟨es2, hev2, _⟩
            refine ⟨Event.persist rec (some t) :: es2, ?_,
              Or.inr ⟨rec, es2, rfl, href⟩⟩
            rw [hev2, hev, List.append_assoc]
            rfl

theorem workOK_saveWork (c : HasManyQueryClient) (related : Ref) :
    WorkOK c.parent (saveWork c related) := by
  apply workOK_of_tail c.parent
    ((fun t w1 =>
      match hydrateForPersistance c.relation c.parent related w1 with
      | (w, Except.error e) => (w, Except.error e)
      | (w, Except.ok _) => rowSave related (setTrx related t w)) :
      TrxId → World → World × Except OpError Unit)
  · intro t w1
    show StepOK t w1 (match hydrateForPersistance c.relation c.parent related w1 with
      | (w, Except.error e) => (w, Except.error e)
      | (w, Except.ok _) => rowSave related (setTrx related t w) :
        World × Except OpError Unit).1
    split
    next w2 e heq =>
        have hx := stepOK_hydrate t c.relation c.parent related w1
        rw [heq] at hx
        exact hx
    next w2 u heq =>
        have s2 : StepOK t w1 w2 := by
          have hx := stepOK_hydrate t c.relation c.parent related w1
          rw [heq] at hx
          exact hx
        exact s2.trans (stepOK_setTrxSave related t w2)
  · intro t w
    unfold saveWork
    cases hs : rowSave c.parent (setTrx c.parent t w) with
    | mk w1 res => cases res <;> rfl

theorem workOK_saveManyWork (c : HasManyQueryClient) (related : List Ref) :
    WorkOK c.parent (saveManyWork c related) := by
  apply workOK_of_tail c.parent
    ((fun t w1 => saveManyLoop c.relation c.parent t related w1) :
      TrxId → World → World × Except OpError Unit)
  · intro t w1
    exact stepOK_saveManyLoop c.relation c.parent t related w1
  · intro t w
    unfold saveManyWork
    cases hs : rowSave c.parent (setTrx c.parent t w) with
    | mk w1 res => cases res <;> rfl

theorem workOK_createWork (c : HasManyQueryClient) (values : Ref) :
    WorkOK c.parent (createWork c values) := by
  apply workOK_of_tail c.parent
    ((fun t w1 =>
      match objAssignCopy values w1 with
      | (w, Except.error e) => (w, Except.error e)
      | (w, Except.ok valuesToPersist) =>
          match hydrateForPersistance c.relation c.parent valuesToPersist w with
          | (w, Except.error e) => (w, Except.error e)
          | (w, Except.ok _) => relatedCreate valuesToPersist t w) :
      TrxId → World → World × Except OpError Ref)
  · intro t w1
    show StepOK t w1 (match objAssignCopy values w1 with
      | (w, Except.error e) => (w, Except.error e)
      | (w, Except.ok valuesToPersist) =>
          match hydrateForPersistance c.relation c.parent valuesToPersist w with
          | (w, Except.error e) => (w, Except.error e)
          | (w, Except.ok _) => relatedCreate valuesToPersist t w :
        World × Except OpError Ref).1
    split
    next w2 e heq =>
        have hx := stepOK_objAssignCopy t values w1
        rw [heq] at hx
        exact hx
    next w2 v heq =>
        have s2 : StepOK t w1 w2 := by
          have hx := stepOK_objAssignCopy t values w1
          rw [heq] at hx
          exact hx
        split
        next w3 e2 heq2 =>
            have s3 : StepOK t w2 w3 := by
              have hx := stepOK_hydrate t c.relation c.parent v w2
              rw [heq2] at hx
              exact hx
            exact s2.trans s3
        next w3 u heq2 =>
            have s3 : StepOK t w2 w3 := by
              have hx := stepOK_hydrate t c.relation c.parent v w2
              rw [heq2] at hx
              exact hx
            exact (s2.trans s3).trans (stepOK_relatedCreate v t w3)
  · intro t w
    unfold createWork
    cases hs : rowSave c.parent (setTrx c.parent t w) with
    | mk w1 res => cases res <;> rfl

theorem workOK_createManyWork (c : HasManyQueryClient) (values : List Ref) :
    WorkOK c.parent (createManyWork c values) := by
  apply workOK_of_tail c.parent
    ((fun t w1 =>
      match copyAndHydrateAll c.relation c.parent values w1 with
      | (w, Except.error e) => (w, Except.error e)
      | (w, Except.ok valuesToPersist) => relatedCreateMany valuesToPersist t w) :
      TrxId → World → World × Except OpError (List Ref))
  · intro t w1
    show StepOK t w1 (match copyAndHydrateAll c.relation c.parent values w1 with
      | (w, Except.error e) => (w, Except.error e)
      | (w, Except.ok valuesToPersist) => relatedCreateMany valuesToPersist t w :
        World × Except OpError (List Ref)).1
    split
    next w2 e heq =>
        have hx := stepOK_copyAndHydrateAll c.relation c.parent t values w1
        rw [heq] at hx
        exact hx
    next w2 vals heq =>
        have s2 : StepOK t w1 w2 := by
          have hx := stepOK_copyAndHydrateAll c.relation c.parent t values w1
          rw [heq] at hx
          exact hx
        exact s2.trans (stepOK_relatedCreateMany t vals w2)
  · intro t w
    unfold createManyWork
    cases hs : rowSave c.parent (setTrx c.parent t w) with
    | mk w1 res => cases res <;> rfl

theorem workOK_firstOrCreateWork (c : HasManyQueryClient) (search : Ref)
    (savePayload : Fields) : WorkOK c.parent (firstOrCreateWork c search savePayload) := by
  apply workOK_of_tail c.parent
    ((fun t w1 =>
      match objAssignCopy search w1 with
      | (w, Except.error e) => (w, Except.error e)
      | (w, Except.ok valuesToPersist) =>
          match hydrateForPersistance c.relation c.parent valuesToPersist w with
          | (w, Except.error e) => (w, Except.error e)
          | (w, Except.ok _) => relatedFirstOrCreate valuesToPersist savePayload t w) :
      TrxId → World → World × Except OpError Ref)
  · intro t w1
    show StepOK t w1 (match objAssignCopy search w1 with
      | (w, Except.error e) => (w, Except.error e)
      | (w, Except.ok valuesToPersist) =>
          match hydrateForPersistance c.relation c.parent valuesToPersist w with
          | (w, Except.error e) => (w, Except.error e)
          | (w, Except.ok _) => relatedFirstOrCreate valuesToPersist savePayload t w :
        World × Except OpError Ref).1
    split
    next w2 e heq =>
        have hx := stepOK_objAssignCopy t search w1
        rw [heq] at hx
        exact hx
    next w2 v heq =>
        have s2 : StepOK t w1 w2 := by
          have hx := stepOK_objAssignCopy t search w1
          rw [heq] at hx
          exact hx
        split
        next w3 e2 heq2 =>
            have s3 : StepOK t w2 w3 := by
              have hx := stepOK_hydrate t c.relation c.parent v w2
              rw [heq2] at hx
              exact hx
            exact s2.trans s3
        next w3 u heq2 =>
            have s3 : StepOK t w2 w3 := by
              have hx := stepOK_hydrate t c.relation c.parent v w2
              rw [heq2] at hx
              exact hx
            exact (s2.trans s3).trans (stepOK_relatedFirstOrCreate v savePayload t w3)
  · intro t w
    unfold firstOrCreateWork
    cases hs : rowSave c.parent (setTrx c.parent t w) with
    | mk w1 res => cases res <;> rfl

theorem workOK_updateOrCreateWork (c : HasManyQueryClient) (search : Ref)
    (updatePayload : Fields) :
    WorkOK c.parent (updateOrCreateWork c search updatePayload) := by
  apply workOK_of_tail c.parent
    ((fun t w1 =>
      match objAssignCopy search w1 with
      | (w, Except.error e) => (w, Except.error e)
      | (w, Except.ok valuesToPersist) =>
          match hydrateForPersistance c.relation c.parent valuesToPersist w with
          | (w, Except.error e) => (w, Except.error e)
          | (w, Except.ok _) => relatedUpdateOrCreate valuesToPersist updatePayload t w) :
      TrxId → World → World × Except OpError Ref)
  · intro t w1
    show StepOK t w1 (match objAssignCopy search w1 with
      | (w, Except.error e) => (w, Except.error e)
      | (w, Except.ok valuesToPersist) =>
          match hydrateForPersistance c.relation c.parent valuesToPersist w with
          | (w, Except.error e) => (w, Except.error e)
          | (w, Except.ok _) => relatedUpdateOrCreate valuesToPersist updatePayload t w :
        World × Except OpError Ref).1
    split
    next w2 e heq =>
        have hx := stepOK_objAssignCopy t search w1
        rw [heq] at hx
        exact hx
    next w2 v heq =>
        have s2 : StepOK t w1 w2 := by
          have hx := stepOK_objAssignCopy t search w1
          rw [heq] at hx
          exact hx
        split
        next w3 e2 heq2 =>
            have s3 : StepOK t w2 w3 := by
              have hx := stepOK_hydrate t c.relation c.parent v w2
              rw [heq2] at hx
              exact hx
            exact s2.trans s3
        next w3 u heq2 =>
            have s3 : StepOK t w2 w3 := by
              have hx := stepOK_hydrate t c.relation c.parent v w2
              rw [heq2] at hx
              exact hx
            exact (s2.trans s3).trans (stepOK_relatedUpdateOrCreate v updatePayload t w3)
  · intro t w
    unfold updateOrCreateWork
    cases hs : rowSave c.parent (setTrx c.parent t w) with
    | mk w1 res => cases res <;> rfl

theorem workOK_fetchOrCreateManyWork (c : HasManyQueryClient) (payload : List Ref)
    (predicate : PredicateArg) :
    WorkOK c.parent (fetchOrCreateManyWork c payload predicate) := by
  apply workOK_of_tail c.parent
    ((fun t w1 =>
      match hydrateAll c.relation c.parent payload w1 with
      | (w, Except.error e) => (w, Except.error e)
      | (w, Except.ok _) =>
          relatedFetchOrCreateMany
            (normalizePredicate predicate ++ [c.relation.foreignKey]) payload t w) :
      TrxId → World → World × Except OpError (List Ref))
  · intro t w1
    show StepOK t w1 (match hydrateAll c.relation c.parent payload w1 with
      | (w, Except.error e) => (w, Except.error e)
      | (w, Except.ok _) =>
          relatedFetchOrCreateMany
            (normalizePredicate predicate ++ [c.relation.foreignKey]) payload t w :
        World × Except OpError (List Ref)).1
    split
    next w2 e heq =>
        have hx := stepOK_hydrateAll c.relation c.parent t payload w1
        rw [heq] at hx
        exact hx
    next w2 u heq =>
        have s2 : StepOK t w1 w2 := by
          have hx := stepOK_hydrateAll c.relation c.parent t payload w1
          rw [heq] at hx
          exact hx
        exact s2.trans (stepOK_relatedFetchOrCreateMany _ payload t w2)
  · intro t w
    unfold fetchOrCreateManyWork
    cases hs : rowSave c.parent (setTrx c.parent t w) with
    | mk w1 res => cases res <;> rfl

theorem workOK_updateOrCreateManyWork (c : HasManyQueryClient) (payload : List Ref)
    (predicate : PredicateArg) :
    WorkOK c.parent (updateOrCreateManyWork c payload predicate) := by
  apply workOK_of_tail c.parent
    ((fun t w1 =>
      match hydrateAll c.relation c.parent payload w1 with
      | (w, Except.error e) => (w, Except.error e)
      | (w, Except.ok _) =>
          relatedUpdateOrCreateMany
            (normalizePredicate predicate ++ [c.relation.foreignKey]) payload t w) :
      TrxId → World → World × Except OpError (List Ref))
  · intro t w1
    show StepOK t w1 (match hydrateAll c.relation c.parent payload w1 with
      | (w, Except.error e) => (w, Except.error e)
      | (w, Except.ok _) =>
          relatedUpdateOrCreateMany
            (normalizePredicate predicate ++ [c.relation.foreignKey]) payload t w :
        World × Except OpError (List Ref)).1
    split
    next w2 e heq =>
        have hx := stepOK_hydrateAll c.relation c.parent t payload w1
        rw [heq] at hx
        exact hx
    next w2 u heq =>
        have s2 : StepOK t w1 w2 := by
          have hx := stepOK_hydrateAll c.relation c.parent t payload w1
          rw [heq] at hx
          exact hx
        exact s2.trans (stepOK_relatedUpdateOrCreateMany _ payload t w2)
  · intro t w
    unfold updateOrCreateManyWork
    cases hs : rowSave c.parent (setTrx c.parent t w) with
    | mk w1 res => cases res <;> rfl

/-! ## Transaction-resolution and atomicity contracts -/

/-- The transaction contract of one write operation bound to `parent`:
with an inherited handle `t` on the parent, the operation appends only
events scoped to `t` (hence never commits or rolls `t` back) and leaves the
parent's `$trx` slot at `t`; with no handle on the parent, it opens the fresh
handle `w.nextTrx` from the raw client, appends only events scoped to it
between the begin and a final commit-or-rollback, and pins the parent's
`$trx` slot to that fresh handle. -/
def TrxResolutionOK {A : Type} (parent : Ref)
    (op : World → World × Except OpError A) : Prop :=
  ∀ w, w.refsClosed → w.hasRow parent →
    (∀ t, w.rowTrx parent = some t →
       (∃ es, (op w).1.events = w.events ++ es ∧ ∀ e ∈ es, e.scopedTo t) ∧
       (op w).1.rowTrx parent = some t) ∧
    (w.rowTrx parent = none →
       (∃ es finale, (op w).1.events
           = w.events ++ Event.trxBegin w.nextTrx :: (es ++ [finale]) ∧
         (∀ e ∈ es, e.scopedTo w.nextTrx) ∧
         (finale = Event.trxCommit w.nextTrx ∨ finale = Event.trxRollback w.nextTrx)) ∧
       (op w).1.rowTrx parent = some w.nextTrx)

/-- The atomicity contract of one write operation bound to `parent`: run
with no pre-existing transaction on the parent (an owned transaction), a
failing run leaves the durable store and every pending buffer exactly as
they were, and its trace is the begin, scoped work events only, and a final
rollback of the owned handle. -/
def OwnedFailureAtomic {A : Type} (parent : Ref)
    (op : World → World × Except OpError A) : Prop :=
  ∀ w, w.refsClosed → w.trxClosed → w.hasRow parent → w.rowTrx parent = none →
    ∀ w' e, op w = (w', .error e) →
      w'.committed = w.committed ∧
      w'.pending = w.pending ∧
      ∃ es, w'.events
          = w.events ++ Event.trxBegin w.nextTrx :: (es ++ [Event.trxRollback w.nextTrx]) ∧
        ∀ ev ∈ es, ev.scopedTo w.nextTrx

theorem trxResolutionOK_of_workOK {A : Type} {parent : Ref}
    {work : TrxId → World → World × Except OpError A} (client : Client)
    (hw : WorkOK parent work)
    (op : World → World × Except OpError A)
    (hop : ∀ w, op w = managedTransaction (parentTrxOrClient w parent client) work w) :
    TrxResolutionOK parent op := by
  intro w hrc hhas
  constructor
  · intro t ht
    rw [hop]
    have hsrc : parentTrxOrClient w parent client = .trx t := by
      unfold parentTrxOrClient
      rw [ht]
    rw [hsrc]
    show (∃ es, (work t w).1.events = w.events ++ es ∧ ∀ e ∈ es, e.scopedTo t) ∧
      (work t w).1.rowTrx parent = some t
    rcases hw t w hrc with ⟨hstep, htrx, _⟩
    exact ⟨hstep.events_mono, htrx hhas⟩
  · intro ht
    rw [hop]
    have hsrc : parentTrxOrClient w parent client = .client client := by
      unfold parentTrxOrClient
      rw [ht]
    rw [hsrc]
    have hbrc : (w.beginTrx).2.refsClosed := hrc
    have hbhas : (w.beginTrx).2.hasRow parent := hhas
    rcases hw (w.beginTrx).1 (w.beginTrx).2 hbrc with ⟨hstep, htrx, _⟩
    rcases hstep.events_mono with ⟨es, hes, hsc⟩
    show (∃ es finale, (managedTransaction (.client client) work w).1.events
           = w.events ++ Event.trxBegin w.nextTrx :: (es ++ [finale]) ∧
         (∀ e ∈ es, e.scopedTo w.nextTrx) ∧
         (finale = Event.trxCommit w.nextTrx ∨ finale = Event.trxRollback w.nextTrx)) ∧
      (managedTransaction (.client client) work w).1.rowTrx parent = some w.nextTrx
    unfold managedTransaction
    cases hres : work (w.beginTrx).1 (w.beginTrx).2 with
    | mk w2 res =>
        rw [hres] at hes
        have hes2 : w2.events = (w.events ++ [Event.trxBegin w.nextTrx]) ++ es := by
          rw [← beginTrx_events w]
          exact hes
        have htrx2 : w2.rowTrx parent = some w.nextTrx := by
          have := htrx hbhas
          rw [hres] at this
          exact this
        cases res with
        | ok a =>
            refine ⟨⟨es, Event.trxCommit w.nextTrx, ?_, hsc, Or.inl rfl⟩, ?_⟩
            · show (w2.commitTrx (w.beginTrx).1).events = _
              rw [commitTrx_events]
              rw [hes2]
              have hb1 : (World.beginTrx w).1 = w.nextTrx := rfl
              simp only [hb1, List.append_assoc, List.cons_append, List.nil_append,
                List.singleton_append]
            · show (w2.commitTrx (w.beginTrx).1).rowTrx parent = some w.nextTrx
              have hh : (w2.commitTrx (w.beginTrx).1).heap = w2.heap := rfl
              rw [World.rowTrx_eq_of_heap_eq hh parent]
              exact htrx2
        | error e =>
            refine ⟨⟨es, Event.trxRollback w.nextTrx, ?_, hsc, Or.inr rfl⟩, ?_⟩
            · show (w2.rollbackTrx (w.beginTrx).1).events = _
              rw [rollbackTrx_events]
              rw [hes2]
              have hb1 : (World.beginTrx w).1 = w.nextTrx := rfl
              simp only [hb1, List.append_assoc, List.cons_append, List.nil_append,
                List.singleton_append]
            · show (w2.rollbackTrx (w.beginTrx).1).rowTrx parent = some w.nextTrx
              have hh : (w2.rollbackTrx (w.beginTrx).1).heap = w2.heap := rfl
              rw [World.rowTrx_eq_of_heap_eq hh parent]
              exact htrx2

theorem ownedFailureAtomic_of_workOK {A : Type} {parent : Ref}
    {work : TrxId → World → World × Except OpError A} (client : Client)
    (hw : WorkOK parent work)
    (op : World → World × Except OpError A)
    (hop : ∀ w, op w = managedTransaction (parentTrxOrClient w parent client) work w) :
    OwnedFailureAtomic parent op := by
  intro w hrc htc hhas ht w' e hrun
  rw [hop] at hrun
  have hsrc : parentTrxOrClient w parent client = .client client := by
    unfold parentTrxOrClient
    rw [ht]
  rw [hsrc] at hrun
  have hbrc : (w.beginTrx).2.refsClosed := hrc
  rcases hw (w.beginTrx).1 (w.beginTrx).2 hbrc with ⟨hstep, _, _⟩
  unfold managedTransaction at hrun
  cases hres : work (w.beginTrx).1 (w.beginTrx).2 with
  | mk w2 res =>
      rw [hres] at hrun
      rw [hres] at hstep
      cases res with
      | ok a => exact absurd hrun (by simp)
      | error e2 =>
          have hw' : w' = w2.rollbackTrx (w.beginTrx).1 := by
            have hfst := congrArg Prod.fst hrun
            exact hfst.symm
          have hstep2 : ScopedStep w.nextTrx (w.beginTrx).2 w2 := by
            have hb1 : (World.beginTrx w).1 = w.nextTrx := rfl
            rw [← hb1]
            exact hstep
          rcases hstep2.events_mono with ⟨es, hes, hsc⟩
          refine ⟨?_, ?_, es, ?_, hsc⟩
          · rw [hw']
            show w2.committed = w.committed
            rw [hstep2.committed_eq]
            rfl
          · rw [hw']
            show removePending w2.pending w.nextTrx = w.pending
            rw [hstep2.pending_eq]
            show removePending (w.pending ++ [(w.nextTrx, [])]) w.nextTrx = w.pending
            rw [removePending_append]
            have h1 : removePending w.pending w.nextTrx = w.pending :=
              removePending_of_closed htc
            have h2 : removePending [(w.nextTrx, [])] w.nextTrx = [] := by
              simp [removePending]
            rw [h1, h2, List.append_nil]
          · rw [hw']
            rw [rollbackTrx_events]
            have hes2 : w2.events = (w.events ++ [Event.trxBegin w.nextTrx]) ++ es := by
              rw [← beginTrx_events w]
              exact hes
            rw [hes2]
            have hb1 : (World.beginTrx w).1 = w.nextTrx := rfl
            simp only [hb1, List.append_assoc, List.cons_append, List.nil_append,
              List.singleton_append]

deriving instance DecidableEq for Except

/-- C4 -- Every write operation of `HasManyQueryClient` resolves its
transaction handle as `this.parent.$trx || this.client`: with a transaction
already on the parent it runs the work directly under that handle, never
appending a commit or rollback (every appended event is scoped to the
inherited handle), and leaves the parent's `$trx` slot at that handle; with
no transaction on the parent it opens a fresh handle from the raw client,
pins the parent's slot to it, scopes every persistence step to it, and ends
with exactly one commit-or-rollback of it. -/
theorem write_ops_trx_resolution (c : HasManyQueryClient) :
    (∀ related, TrxResolutionOK c.parent (c.save related)) ∧
    (∀ related, TrxResolutionOK c.parent (c.saveMany related)) ∧
    (∀ values, TrxResolutionOK c.parent (c.create values)) ∧
    (∀ values, TrxResolutionOK c.parent (c.createMany values)) ∧
    (∀ search savePayload,
      TrxResolutionOK c.parent (c.firstOrCreate search savePayload)) ∧
    (∀ search updatePayload,
      TrxResolutionOK c.parent (c.updateOrCreate search updatePayload)) ∧
    (∀ payload predicate,
      TrxResolutionOK c.parent (c.fetchOrCreateMany payload predicate)) ∧
    (∀ payload predicate,
      TrxResolutionOK c.parent (c.updateOrCreateMany payload predicate)) := by
  refine ⟨?_, ?_, ?_, ?_, ?_, ?_, ?_, ?_⟩
  · intro related
    exact trxResolutionOK_of_workOK c.client (workOK_saveWork c related) _
      (fun w => rfl)
  · intro related
    exact trxResolutionOK_of_workOK c.client (workOK_saveManyWork c related) _
      (fun w => rfl)
  · intro values
    exact trxResolutionOK_of_workOK c.client (workOK_createWork c values) _
      (fun w => rfl)
  · intro values
    exact trxResolutionOK_of_workOK c.client (workOK_createManyWork c values) _
      (fun w => rfl)
  · intro search savePayload
    exact trxResolutionOK_of_workOK c.client
      (workOK_firstOrCreateWork c search savePayload) _ (fun w => rfl)
  · intro search updatePayload
    exact trxResolutionOK_of_workOK c.client
      (workOK_updateOrCreateWork c search updatePayload) _ (fun w => rfl)
  · intro payload predicate
    exact trxResolutionOK_of_workOK c.client
      (workOK_fetchOrCreateManyWork c payload predicate) _ (fun w => rfl)
  · intro payload predicate
    exact trxResolutionOK_of_workOK c.client
      (workOK_updateOrCreateManyWork c payload predicate) _ (fun w => rfl)

/-- A concrete world for the transaction-inheritance check: the parent (ref 0)
already carries transaction 5, the child row is ref 1. -/
def wTrxSample : World :=
  ⟨[(0, ⟨[("id", 1)], [], some 5, false⟩), (1, ⟨[("title", 7)], [], none, false⟩)],
   [], [(5, [])], [], 6, 2, none⟩

def cTrxSample : HasManyQueryClient :=
  ⟨⟨"id", "author_id", "posts.author_id", none⟩, 0, ⟨0⟩⟩

/-- Concrete check for C4: `save` on a parent with an open transaction 5
appends only events scoped to 5 (no commit, no rollback) and keeps the
parent's `$trx` slot at 5. -/
theorem write_ops_trx_resolution_witness :
    ((cTrxSample.save 1 wTrxSample).1.rowTrx cTrxSample.parent = some 5) ∧
    (∃ es, (cTrxSample.save 1 wTrxSample).1.events = wTrxSample.events ++ es ∧
      ∀ e ∈ es, e.scopedTo 5) := by
  have h := ((write_ops_trx_resolution cTrxSample).1 1 wTrxSample
    (by decide) (by decide)).1 5 (by decide)
  exact ⟨h.2, h.1⟩

/-- C3 -- Every write operation of `HasManyQueryClient` run with no
pre-existing transaction on the parent owns its transaction: if any failure
is raised during the unit of work, the operation returns the error (never a
partial result), having rolled the owned transaction back — afterwards the
durable store and every pending buffer are exactly as before, so neither any
child row nor the parent's own pending change is persisted. -/
theorem write_ops_owned_failure_atomic (c : HasManyQueryClient) :
    (∀ related, OwnedFailureAtomic c.parent (c.save related)) ∧
    (∀ related, OwnedFailureAtomic c.parent (c.saveMany related)) ∧
    (∀ values, OwnedFailureAtomic c.parent (c.create values)) ∧
    (∀ values, OwnedFailureAtomic c.parent (c.createMany values)) ∧
    (∀ search savePayload,
      OwnedFailureAtomic c.parent (c.firstOrCreate search savePayload)) ∧
    (∀ search updatePayload,
      OwnedFailureAtomic c.parent (c.updateOrCreate search updatePayload)) ∧
    (∀ payload predicate,
      OwnedFailureAtomic c.parent (c.fetchOrCreateMany payload predicate)) ∧
    (∀ payload predicate,
      OwnedFailureAtomic c.parent (c.updateOrCreateMany payload predicate)) := by
  refine ⟨?_, ?_, ?_, ?_, ?_, ?_, ?_, ?_⟩
  · intro related
    exact ownedFailureAtomic_of_workOK c.client (workOK_saveWork c related) _
      (fun w => rfl)
  · intro related
    exact ownedFailureAtomic_of_workOK c.client (workOK_saveManyWork c related) _
      (fun w => rfl)
  · intro values
    exact ownedFailureAtomic_of_workOK c.client (workOK_createWork c values) _
      (fun w => rfl)
  · intro values
    exact ownedFailureAtomic_of_workOK c.client (workOK_createManyWork c values) _
      (fun w => rfl)
  · intro search savePayload
    exact ownedFailureAtomic_of_workOK c.client
      (workOK_firstOrCreateWork c search savePayload) _ (fun w => rfl)
  · intro search updatePayload
    exact ownedFailureAtomic_of_workOK c.client
      (workOK_updateOrCreateWork c search updatePayload) _ (fun w => rfl)
  · intro payload predicate
    exact ownedFailureAtomic_of_workOK c.client
      (workOK_fetchOrCreateManyWork c payload predicate) _ (fun w => rfl)
  · intro payload predicate
    exact ownedFailureAtomic_of_workOK c.client
      (workOK_updateOrCreateManyWork c payload predicate) _ (fun w => rfl)

/-- A concrete world for the atomicity check: parent ref 0 with no open
transaction, three plain payload objects (refs 1, 2, 3), and a fault budget
of two round trips — the parent and the first created child persist, the
second child's insert fails. -/
def wAtomicSample : World :=
  ⟨[(0, ⟨[("id", 1)], [], none, false⟩),
    (1, ⟨[("t", 10)], [], none, false⟩),
    (2, ⟨[("t", 20)], [], none, false⟩),
    (3, ⟨[("t", 30)], [], none, false⟩)],
   [], [], [], 0, 4, some 2⟩

def cAtomicSample : HasManyQueryClient :=
  ⟨⟨"id", "author_id", "posts.author_id", none⟩, 0, ⟨0⟩⟩

/-- Concrete check for C3: `createMany` over three payloads with the storage
failing on the second child leaves the durable store and the pending buffers
untouched, with a rollback of the owned transaction in the trace. -/
theorem write_ops_owned_failure_atomic_witness :
    ((cAtomicSample.createMany [1, 2, 3] wAtomicSample).1.committed
        = wAtomicSample.committed) ∧
    ((cAtomicSample.createMany [1, 2, 3] wAtomicSample).1.pending
        = wAtomicSample.pending) ∧
    (∃ es, (cAtomicSample.createMany [1, 2, 3] wAtomicSample).1.events
        = wAtomicSample.events
          ++ Event.trxBegin wAtomicSample.nextTrx
            :: (es ++ [Event.trxRollback wAtomicSample.nextTrx]) ∧
      ∀ ev ∈ es, ev.scopedTo wAtomicSample.nextTrx) := by
  have h := (write_ops_owned_failure_atomic cAtomicSample).2.2.2.1 [1, 2, 3]
    wAtomicSample (by decide) (by decide) (by decide) (by decide)
    (cAtomicSample.createMany [1, 2, 3] wAtomicSample).1 OpError.persistFailed
    (by decide)
  exact h

/-! ## Predicate normalization and the builder factories -/

/-- The collaborator call recorded by `relatedFetchOrCreateMany` survives in
the final trace. -/
theorem relatedFetchOrCreateMany_records (fields : List FieldName)
    (payload : List Ref) (t : TrxId) (w : World) (hrc : w.refsClosed) :
    Event.relatedCall "fetchOrCreateMany" fields (payloadAttrs w payload) t
      ∈ (relatedFetchOrCreateMany fields payload t w).1.events := by
  unfold relatedFetchOrCreateMany
  have hrec : (w.recordRelatedCall "fetchOrCreateMany" fields
      (payloadAttrs w payload) t).refsClosed := hrc
  rcases ((stepOK_fetchOrCreateLoop fields t payload _) hrec).events_mono with
    ⟨es, hes, _⟩
  rw [hes]
  apply List.mem_append_left
  exact List.mem_append_right _ (List.mem_singleton_self _)

theorem relatedUpdateOrCreateMany_records (fields : List FieldName)
    (payload : List Ref) (t : TrxId) (w : World) (hrc : w.refsClosed) :
    Event.relatedCall "updateOrCreateMany" fields (payloadAttrs w payload) t
      ∈ (relatedUpdateOrCreateMany fields payload t w).1.events := by
  unfold relatedUpdateOrCreateMany
  have hrec : (w.recordRelatedCall "updateOrCreateMany" fields
      (payloadAttrs w payload) t).refsClosed := hrc
  rcases ((stepOK_updateOrCreateLoop fields t payload _) hrec).events_mono with
    ⟨es, hes, _⟩
  rw [hes]
  apply List.mem_append_left
  exact List.mem_append_right _ (List.mem_singleton_self _)

theorem fetchOrCreateManyWork_call (c : HasManyQueryClient) (payload : List Ref)
    (p : PredicateArg) (t : TrxId) (w w' : World) (hrc : w.refsClosed)
    (rs : List Ref)
    (hok : fetchOrCreateManyWork c payload p t w = (w', Except.ok rs)) :
    ∃ pl, Event.relatedCall "fetchOrCreateMany"
        (normalizePredicate p ++ [c.relation.foreignKey]) pl t ∈ w'.events := by
  unfold fetchOrCreateManyWork at hok
  split at hok
  next w1 e heq => exact absurd hok (by simp)
  next w1 u heq =>
      split at hok
      next w2 e2 heq2 => exact absurd hok (by simp)
      next w2 u2 heq2 =>
          have hrc1 : w1.refsClosed := by
            have hx := stepOK_setTrxSave c.parent t w
            rw [heq] at hx
            exact (hx hrc).refs_closed
          have hrc2 : w2.refsClosed := by
            have hx := stepOK_hydrateAll c.relation c.parent t payload w1
            rw [heq2] at hx
            exact (hx hrc1).refs_closed
          have hm := relatedFetchOrCreateMany_records
            (normalizePredicate p ++ [c.relation.foreignKey]) payload t w2 hrc2
          have hw' : w' = (relatedFetchOrCreateMany
              (normalizePredicate p ++ [c.relation.foreignKey]) payload t w2).1 := by
            rw [hok]
          refine ⟨payloadAttrs w2 payload, ?_⟩
          rw [hw']
          exact hm

theorem updateOrCreateManyWork_call (c : HasManyQueryClient) (payload : List Ref)
    (p : PredicateArg) (t : TrxId) (w w' : World) (hrc : w.refsClosed)
    (rs : List Ref)
    (hok : updateOrCreateManyWork c payload p t w = (w', Except.ok rs)) :
    ∃ pl, Event.relatedCall "updateOrCreateMany"
        (normalizePredicate p ++ [c.relation.foreignKey]) pl t ∈ w'.events := by
  unfold updateOrCreateManyWork at hok
  split at hok
  next w1 e heq => exact absurd hok (by simp)
  next w1 u heq =>
      split at hok
      next w2 e2 heq2 => exact absurd hok (by simp)
      next w2 u2 heq2 =>
          have hrc1 : w1.refsClosed := by
            have hx := stepOK_setTrxSave c.parent t w
            rw [heq] at hx
            exact (hx hrc).refs_closed
          have hrc2 : w2.refsClosed := by
            have hx := stepOK_hydrateAll c.relation c.parent t payload w1
            rw [heq2] at hx
            exact (hx hrc1).refs_closed
          have hm := relatedUpdateOrCreateMany_records
            (normalizePredicate p ++ [c.relation.foreignKey]) payload t w2 hrc2
          have hw' : w' = (relatedUpdateOrCreateMany
              (normalizePredicate p ++ [c.relation.foreignKey]) payload t w2).1 := by
            rw [hok]
          refine ⟨payloadAttrs w2 payload, ?_⟩
          rw [hw']
          exact hm

/-- Lift a property of the unit of work's success trace through
`managedTransaction`. -/
theorem managed_prop_of_work {A : Type} {parent : Ref} {client : Client}
    {work : TrxId → World → World × Except OpError A} {w w' : World} {a : A}
    (P : TrxId → Event → Prop)
    (hok : managedTransaction (parentTrxOrClient w parent client) work w
      = (w', Except.ok a))
    (hwork : ∀ t wt w2 a2, wt.refsClosed → work t wt = (w2, Except.ok a2) →
      ∃ e, P t e ∧ e ∈ w2.events)
    (hrc : w.refsClosed) :
    ∃ t e, P t e ∧ e ∈ w'.events := by
  cases hsrc : parentTrxOrClient w parent client with
  | trx t =>
      rw [hsrc] at hok
      have hok2 : work t w = (w', Except.ok a) := hok
      rcases hwork t w w' a hrc hok2 with ⟨e, hP, hmem⟩
      exact ⟨t, e, hP, hmem⟩
  | client cl =>
      rw [hsrc] at hok
      unfold managedTransaction at hok
      cases hres : work (w.beginTrx).1 (w.beginTrx).2 with
      | mk w2 res =>
          rw [hres] at hok
          cases res with
          | error e => exact absurd hok (by simp)
          | ok a2 =>
              have hbrc : (w.beginTrx).2.refsClosed := hrc
              rcases hwork (w.beginTrx).1 (w.beginTrx).2 w2 a2 hbrc hres with
                ⟨e, hP, hmem⟩
              have hw' : w' = w2.commitTrx (w.beginTrx).1 := by
                have hfst := congrArg Prod.fst hok
                exact hfst.symm
              refine ⟨(w.beginTrx).1, e, hP, ?_⟩
              rw [hw', commitTrx_events]
              exact List.mem_append_left _ hmem

/-- C6 -- For `fetchOrCreateMany` and `updateOrCreateMany` the optional
predicate argument is normalized to an array in all three shapes (absent, a
single field name, an array of field names) before use, and the relation's
foreign key is then appended, so the related model receives
`["email", foreignKey]` for predicate `"email"` or `["email"]` and
`[foreignKey]` for an absent predicate; the append performs no deduplication
against a caller-supplied foreign key. -/
theorem batch_predicate_normalization :
    (∀ fk : FieldName, normalizePredicate .undef ++ [fk] = [fk]) ∧
    (∀ fk : FieldName, normalizePredicate (.single "email") ++ [fk] = ["email", fk]) ∧
    (∀ fk : FieldName, normalizePredicate (.fieldList ["email"]) ++ [fk]
        = ["email", fk]) ∧
    (∀ fk : FieldName, normalizePredicate (.fieldList [fk]) ++ [fk] = [fk, fk]) ∧
    (∀ (c : HasManyQueryClient) (payload : List Ref) (p : PredicateArg)
        (w w' : World) (rs : List Ref), w.refsClosed →
      c.fetchOrCreateMany payload p w = (w', Except.ok rs) →
      ∃ pl t, Event.relatedCall "fetchOrCreateMany"
          (normalizePredicate p ++ [c.relation.foreignKey]) pl t ∈ w'.events) ∧
    (∀ (c : HasManyQueryClient) (payload : List Ref) (p : PredicateArg)
        (w w' : World) (rs : List Ref), w.refsClosed →
      c.updateOrCreateMany payload p w = (w', Except.ok rs) →
      ∃ pl t, Event.relatedCall "updateOrCreateMany"
          (normalizePredicate p ++ [c.relation.foreignKey]) pl t ∈ w'.events) := by
  refine ⟨fun fk => rfl, fun fk => by simp [normalizePredicate],
    fun fk => rfl, fun fk => rfl, ?_, ?_⟩
  · intro c payload p w w' rs hrc hok
    have hm := managed_prop_of_work
      (fun t e => ∃ pl, e = Event.relatedCall "fetchOrCreateMany"
        (normalizePredicate p ++ [c.relation.foreignKey]) pl t)
      hok ?_ hrc
    · rcases hm with ⟨t, e, ⟨pl, hPe⟩, hmem⟩
      rw [hPe] at hmem
      exact ⟨pl, t, hmem⟩
    · intro t wt w2 a2 hwrc hwok
      rcases fetchOrCreateManyWork_call c payload p t wt w2 hwrc a2 hwok with
        ⟨pl, hmem⟩
      exact ⟨_, ⟨pl, rfl⟩, hmem⟩
  · intro c payload p w w' rs hrc hok
    have hm := managed_prop_of_work
      (fun t e => ∃ pl, e = Event.relatedCall "updateOrCreateMany"
        (normalizePredicate p ++ [c.relation.foreignKey]) pl t)
      hok ?_ hrc
    · rcases hm with ⟨t, e, ⟨pl, hPe⟩, hmem⟩
      rw [hPe] at hmem
      exact ⟨pl, t, hmem⟩
    · intro t wt w2 a2 hwrc hwok
      rcases updateOrCreateManyWork_call c payload p t wt w2 hwrc a2 hwok with
        ⟨pl, hmem⟩
      exact ⟨_, ⟨pl, rfl⟩, hmem⟩

/-- A concrete world for the predicate-normalization check: parent ref 0
with no transaction and one payload object ref 1 carrying an email field. -/
def wPredSample : World :=
  ⟨[(0, ⟨[("id", 1)], [], none, false⟩), (1, ⟨[("email", 3)], [], none, false⟩)],
   [], [], [], 0, 2, none⟩

def cPredSample : HasManyQueryClient :=
  ⟨⟨"id", "author_id", "posts.author_id", none⟩, 0, ⟨0⟩⟩

/-- Concrete check for C6: a successful `fetchOrCreateMany` with predicate
`"email"` delegates with the field list `["email", "author_id"]`. -/
theorem batch_predicate_normalization_witness :
    ∃ pl t, Event.relatedCall "fetchOrCreateMany" ["email", "author_id"] pl t
      ∈ ((cPredSample.fetchOrCreateMany [1] (.single "email") wPredSample).1).events := by
  have h := batch_predicate_normalization.2.2.2.2.1 cPredSample [1] (.single "email")
    wPredSample
    ((cPredSample.fetchOrCreateMany [1] (.single "email") wPredSample).1)
    [2] (by decide) (by decide)
  exact h

/-- C8 -- Each of the three static builder factories invokes the relation's
query-customization hook exactly once on the newly constructed builder when
one is registered, and performs no hook call when none is; `subQuery` honors
the hook although its builder binds no parent. -/
theorem factories_invoke_hook_once (client : Client) (relation : HasMany)
    (row : Ref) (rows : ParentOrParents) :
    ((HasManyQueryClient.queryStatic client relation row).hookCalls
        = if relation.onQueryHook.isSome then 1 else 0) ∧
    ((HasManyQueryClient.eagerQuery client relation rows).hookCalls
        = if relation.onQueryHook.isSome then 1 else 0) ∧
    ((HasManyQueryClient.subQuery client relation).hookCalls
        = if relation.onQueryHook.isSome then 1 else 0) := by
  unfold HasManyQueryClient.queryStatic HasManyQueryClient.eagerQuery
    HasManyQueryClient.subQuery invokeHookIfFunction invokeHookIfFunctionSub
  cases h : relation.onQueryHook <;>
    simp [h, HasManyQueryBuilder.make]

/-- C10 -- The instance method `query()` delegates to the static factory
`query` applied to the client's own stored client, relation and parent row:
the two builders are identical, with the client's parent bound in
single-parent mode, the client's relation, the preload flag off, and the
hook invoked exactly when registered. -/
theorem query_instance_matches_static (c : HasManyQueryClient) :
    c.query = HasManyQueryClient.queryStatic c.client c.relation c.parent ∧
    (c.query).parent = ParentOrParents.one c.parent ∧
    (c.query).relation = c.relation ∧
    (c.query).isRelatedPreloadQuery = false ∧
    ((c.query).hookCalls = if c.relation.onQueryHook.isSome then 1 else 0) := by
  refine ⟨rfl, ?_, ?_, ?_, ?_⟩ <;>
    · unfold HasManyQueryClient.query HasManyQueryClient.queryStatic
        invokeHookIfFunction
      cases h : c.relation.onQueryHook <;>
        simp [h, HasManyQueryBuilder.make]

/-! ## Field-level lemmas and success analyses -/

theorem lookupField_setField_self (a : Fields) (f : FieldName) (v : Int) :
    lookupField (setField a f v) f = some v := by
  induction a with
  | nil => simp [setField, lookupField]
  | cons p rest ih =>
      cases p with
      | mk k v0 =>
          by_cases hk : k = f
          · simp [setField, hk, lookupField]
          · simp only [setField, if_neg hk, lookupField, if_neg hk]
            exact ih

theorem lookupField_setField_ne (a : Fields) (f : FieldName) (v : Int)
    {g : FieldName} (h : g ≠ f) :
    lookupField (setField a f v) g = lookupField a g := by
  induction a with
  | nil =>
      simp only [setField, lookupField, if_neg (fun hh : f = g => h hh.symm)]
  | cons p rest ih =>
      cases p with
      | mk k v0 =>
          by_cases hk : k = f
          · subst hk
            simp only [setField, if_pos rfl]
            simp only [lookupField, if_neg (fun hh : k = g => h hh.symm)]
          · simp only [setField, if_neg hk]
            by_cases hg : k = g
            · simp only [lookupField, if_pos hg]
            · simp only [lookupField, if_neg hg]
              exact ih

theorem lookupField_setField_same_value (a : Fields) (f : FieldName) (v : Int)
    (hv : lookupField a f = some v) (g : FieldName) :
    lookupField (setField a f v) g = lookupField a g := by
  by_cases h : g = f
  · subst h
    rw [lookupField_setField_self, hv]
  · exact lookupField_setField_ne a f v h

theorem lookupField_mergeFields_none (a : Fields) (g : Fields) (f : FieldName)
    (h : lookupField g f = none) :
    lookupField (mergeFields a g) f = lookupField a f := by
  induction g generalizing a with
  | nil => rfl
  | cons p rest ih =>
      cases p with
      | mk k v =>
          simp only [lookupField] at h
          by_cases hk : k = f
          · rw [if_pos hk] at h
            exact Option.noConfusion h
          · rw [if_neg hk] at h
            simp only [mergeFields]
            rw [ih (setField a k v) h]
            exact lookupField_setField_ne a k v (fun hh => hk hh.symm)

/-- Success analysis of `hydrateForPersistance`. -/
theorem hydrate_ok_spec {rel : HasMany} {parent child : Ref} {w w' : World}
    {u : Unit} (h : hydrateForPersistance rel parent child w = (w', .ok u)) :
    ∃ v cd, getValue w parent rel.localKey = .ok v ∧ w.getRow child = some cd ∧
      w' = w.setRow child
        { cd with attributes := setField cd.attributes rel.foreignKey v } := by
  unfold hydrateForPersistance at h
  split at h
  next e heq => exact absurd h (by simp)
  next v heq =>
      split at h
      next heq2 => exact absurd h (by simp)
      next cd heq2 =>
          refine ⟨v, cd, heq, heq2, ?_⟩
          have hfst := congrArg Prod.fst h
          exact hfst.symm

/-- Failure leaves the world untouched. -/
theorem hydrate_error_spec {rel : HasMany} {parent child : Ref} {w w' : World}
    {e : OpError} (h : hydrateForPersistance rel parent child w = (w', .error e)) :
    w' = w := by
  unfold hydrateForPersistance at h
  split at h
  next e2 heq => exact (congrArg Prod.fst h).symm
  next v heq =>
      split at h
      next heq2 => exact (congrArg Prod.fst h).symm
      next cd heq2 => exact absurd h (by simp)

/-- Success analysis of `objAssignCopy`: the copy is the fresh reference. -/
theorem objAssignCopy_ok_spec {src : Ref} {w w' : World} {copy : Ref}
    (h : objAssignCopy src w = (w', .ok copy)) :
    ∃ d, w.getRow src = some d ∧ copy = w.nextRef ∧
      w' = (w.allocRow ⟨d.attributes, [], none, false⟩).2 := by
  unfold objAssignCopy at h
  split at h
  next heq => exact absurd h (by simp)
  next d heq =>
      refine ⟨d, heq, ?_, ?_⟩
      · have hsnd : Except.ok w.nextRef = Except.ok copy := congrArg Prod.snd h
        exact (Except.ok.inj hsnd).symm
      · exact (congrArg Prod.fst h).symm

/-- The getValue success reading. -/
theorem getValue_ok_spec {w : World} {r : Ref} {key : FieldName} {v : Int}
    (h : getValue w r key = .ok v) :
    ∃ d, w.getRow r = some d ∧ lookupField d.attributes key = some v := by
  unfold getValue at h
  split at h
  next heq => exact absurd h (by simp)
  next d heq =>
      split at h
      next heq2 => exact absurd h (by simp)
      next v2 heq2 =>
          refine ⟨d, heq, ?_⟩
          rw [heq2]
          have hv := Except.ok.inj h
          rw [hv]

/-- Projection of the persist records out of an event list. -/
def Event.persistRec : Event → Option PersistRecord
  | .persist rec _ => some rec
  | _ => none

def persistSeq (es : List Event) : List PersistRecord :=
  es.filterMap Event.persistRec

theorem persistSeq_append (a b : List Event) :
    persistSeq (a ++ b) = persistSeq a ++ persistSeq b :=
  List.filterMap_append a b Event.persistRec

theorem recordPersist_heap (w : World) (rec : PersistRecord) (t : Option TrxId) :
    (w.recordPersist rec t).heap = w.heap := by
  unfold World.recordPersist
  cases t <;> rfl

theorem World.getRow_eq_of_heap_eq {w w' : World} (h : w'.heap = w.heap) (r : Ref) :
    w'.getRow r = w.getRow r := by
  unfold World.getRow
  rw [h]

theorem World.getRow_recordPersist (w : World) (rec : PersistRecord)
    (t : Option TrxId) (r : Ref) :
    (w.recordPersist rec t).getRow r = w.getRow r :=
  World.getRow_eq_of_heap_eq (recordPersist_heap w rec t) r

theorem World.getRow_consumeBudget (w : World) (r : Ref) :
    (w.consumeBudget).1.getRow r = w.getRow r :=
  World.getRow_eq_of_heap_eq (consumeBudget_eqs w).1 r

theorem persistSeq_cons_persist (rec : PersistRecord) (tr : Option TrxId)
    (es : List Event) :
    persistSeq (Event.persist rec tr :: es) = rec :: persistSeq es := by
  simp [persistSeq, List.filterMap_cons, Event.persistRec]

theorem mergeFields_nil (a : Fields) : mergeFields a [] = a := rfl

/-- Success analysis of `saveManyLoop`: one persist record per child in
input order, each carrying the parent's local-key value in the foreign-key
field; children end persisted in place; the parent's local key and persisted
flag survive. -/
theorem saveManyLoop_ok_spec (rel : HasMany) (parent : Ref) (t : TrxId) :
    ∀ (rows : List Ref) (w w' : World) (u : Unit),
    saveManyLoop rel parent t rows w = (w', Except.ok u) →
    ∀ pd, w.getRow parent = some pd → pd.generatedOnSave = [] →
    (∀ r ∈ rows, ∀ d, w.getRow r = some d →
        lookupField d.generatedOnSave rel.foreignKey = none) →
    ∃ es recs,
      w'.events = w.events ++ es ∧ persistSeq es = recs ∧
      recs.map PersistRecord.ref = rows ∧
      (∀ rec ∈ recs, lookupField rec.attributes rel.foreignKey
          = lookupField pd.attributes rel.localKey) ∧
      (∀ r2 d2, w.getRow r2 = some d2 → d2.persisted = true →
        ∃ d3, w'.getRow r2 = some d3 ∧ d3.persisted = true) ∧
      (∀ r ∈ rows, ∃ d, w'.getRow r = some d ∧ d.persisted = true) ∧
      ∃ pd', w'.getRow parent = some pd' ∧ pd'.generatedOnSave = [] ∧
        lookupField pd'.attributes rel.localKey
          = lookupField pd.attributes rel.localKey ∧
        (pd.persisted = true → pd'.persisted = true) := by
  intro rows
  induction rows with
  | nil =>
      intro w w' u h pd hpd hpgen hgen
      have hw : w' = w := by
        unfold saveManyLoop at h
        exact (congrArg Prod.fst h).symm
      subst hw
      refine ⟨[], [], (List.append_nil _).symm, rfl, rfl, ?_, ?_, ?_, pd, hpd,
        hpgen, rfl, fun hp => hp⟩
      · intro rec hrec
        exact absurd hrec (List.not_mem_nil rec)
      · intro r2 d2 hg hp
        exact ⟨d2, hg, hp⟩
      · intro r hr
        exact absurd hr (List.not_mem_nil r)
  | cons row rest ih =>
      intro w w' u h pd hpd hpgen hgen
      unfold saveManyLoop at h
      split at h
      next w1 e heq => exact absurd h (by simp)
      next w1 u1 heq =>
          split at h
          next w2 e2 heq2 => exact absurd h (by simp)
          next w2 u2 heq2 =>
              rcases hydrate_ok_spec heq with ⟨v, cd, hval, hcd, hw1⟩
              rcases getValue_ok_spec hval with ⟨pd0, hpd0, hlk0⟩
              have hpdeq : pd0 = pd := by
                rw [hpd0] at hpd
                exact Option.some_inj.mp hpd
              rw [hpdeq] at hlk0
              have hg1 : w1.getRow row = some
                  { cd with attributes := setField cd.attributes rel.foreignKey v } := by
                rw [hw1]
                exact World.getRow_setRow_self w row _ hcd
              have hst : setTrx row t w1 = w1.setRow row
                  ⟨setField cd.attributes rel.foreignKey v, cd.generatedOnSave,
                    some t, cd.persisted⟩ := by
                unfold setTrx
                rw [hg1]
              have hg2 : (setTrx row t w1).getRow row = some
                  ⟨setField cd.attributes rel.foreignKey v, cd.generatedOnSave,
                    some t, cd.persisted⟩ := by
                rw [hst]
                exact World.getRow_setRow_self w1 row _ hg1
              rcases rowSave_ok_spec heq2 with ⟨rowd, hrowd, hw2⟩
              have hrowdeq : rowd =
                  ⟨setField cd.attributes rel.foreignKey v, cd.generatedOnSave,
                    some t, cd.persisted⟩ := by
                rw [hg2] at hrowd
                exact (Option.some_inj.mp hrowd).symm
              have hgenrow : lookupField cd.generatedOnSave rel.foreignKey = none :=
                hgen row (List.mem_cons_self _ _) cd hcd
              have hfkmerged :
                  lookupField (mergeFields rowd.attributes rowd.generatedOnSave)
                    rel.foreignKey = some v := by
                rw [hrowdeq]
                show lookupField
                  (mergeFields (setField cd.attributes rel.foreignKey v)
                    cd.generatedOnSave) rel.foreignKey = some v
                rw [lookupField_mergeFields_none _ _ _ hgenrow,
                  lookupField_setField_self]
              have hw2events : w2.events
                  = w.events ++ [Event.persist
                      ⟨row, mergeFields rowd.attributes rowd.generatedOnSave⟩
                      rowd.trx] := by
                rw [hw2, recordPersist_events, setRow_events_eq,
                  (consumeBudget_eqs _).2.2.2.1, setTrx_events, hw1, setRow_events_eq]
              have hheap2 : ∀ r2, r2 ≠ row → w2.getRow r2 = w.getRow r2 := by
                intro r2 hne
                rw [hw2, World.getRow_recordPersist,
                  World.getRow_setRow_ne _ row _ hne, World.getRow_consumeBudget,
                  hst, World.getRow_setRow_ne _ row _ hne, hw1,
                  World.getRow_setRow_ne _ row _ hne]
              have hg2row : w2.getRow row = some
                  ⟨mergeFields rowd.attributes rowd.generatedOnSave, [],
                    rowd.trx, true⟩ := by
                rw [hw2, World.getRow_recordPersist]
                apply World.getRow_setRow_self
                rw [World.getRow_consumeBudget]
                exact hrowd
              have hstep : ∃ pd2, w2.getRow parent = some pd2 ∧
                  pd2.generatedOnSave = [] ∧
                  lookupField pd2.attributes rel.localKey
                    = lookupField pd.attributes rel.localKey ∧
                  (pd.persisted = true → pd2.persisted = true) := by
                by_cases hpar : parent = row
                · subst hpar
                  have hcdpd : cd = pd := by
                    rw [hcd] at hpd
                    exact Option.some_inj.mp hpd
                  subst hcdpd
                  refine ⟨_, hg2row, rfl, ?_, fun _ => rfl⟩
                  rw [hrowdeq]
                  show lookupField
                    (mergeFields (setField cd.attributes rel.foreignKey v)
                      cd.generatedOnSave) rel.localKey
                    = lookupField cd.attributes rel.localKey
                  rw [hpgen, mergeFields_nil]
                  by_cases hlf : rel.localKey = rel.foreignKey
                  · rw [hlf]
                    rw [hlf] at hlk0
                    rw [lookupField_setField_same_value _ _ _ hlk0]
                  · exact lookupField_setField_ne _ _ _ hlf
                · refine ⟨pd, ?_, hpgen, rfl, fun hp => hp⟩
                  rw [hheap2 parent hpar]
                  exact hpd
              rcases hstep with ⟨pd2, hpd2, hpgen2, hlk2, hpers2⟩
              have hgen2 : ∀ r ∈ rest, ∀ d, w2.getRow r = some d →
                  lookupField d.generatedOnSave rel.foreignKey = none := by
                intro r hr d hgd
                by_cases hre : r = row
                · subst hre
                  rw [hg2row] at hgd
                  rw [← Option.some_inj.mp hgd]
                  rfl
                · rw [hheap2 r hre] at hgd
                  exact hgen r (List.mem_cons_of_mem _ hr) d hgd
              rcases ih w2 w' u h pd2 hpd2 hpgen2 hgen2 with
                ⟨es2, recs2, hev2, hps2, hmap2, hfk2, hmono2, hrows2,
                  pd', hpd', hpgen', hlk', hpers'⟩
              refine ⟨Event.persist
                  ⟨row, mergeFields rowd.attributes rowd.generatedOnSave⟩
                  rowd.trx :: es2,
                ⟨row, mergeFields rowd.attributes rowd.generatedOnSave⟩ :: recs2,
                ?_, ?_, ?_, ?_, ?_, ?_, pd', hpd', hpgen', ?_, ?_⟩
              · rw [hev2, hw2events, List.append_assoc]
                rfl
              · rw [persistSeq_cons_persist, hps2]
              · show row :: recs2.map PersistRecord.ref = row :: rest
                rw [hmap2]
              · intro rec hrec
                rcases List.mem_cons.mp hrec with hrec | hrec
                · rw [hrec]
                  show lookupField (mergeFields rowd.attributes rowd.generatedOnSave)
                    rel.foreignKey = lookupField pd.attributes rel.localKey
                  rw [hfkmerged, hlk0]
                · rw [hfk2 rec hrec, hlk2]
              · intro r2 d2 hg hp
                by_cases hre : r2 = row
                · subst hre
                  exact hmono2 r2 _ hg2row rfl
                · exact hmono2 r2 d2 ((hheap2 r2 hre).symm ▸ hg) hp
              · intro r hr
                rcases List.mem_cons.mp hr with hr | hr
                · subst hr
                  exact hmono2 r _ hg2row rfl
                · exact hrows2 r hr
              · rw [hlk', hlk2]
              · intro hp
                exact hpers' (hpers2 hp)

theorem setTrx_getRow_ne (r : Ref) (t : TrxId) (w : World) {r2 : Ref}
    (h : r2 ≠ r) : (setTrx r t w).getRow r2 = w.getRow r2 := by
  unfold setTrx
  cases hg : w.getRow r with
  | none => rfl
  | some d => exact World.getRow_setRow_ne w r _ h

theorem persistSeq_cons_begin (t : TrxId) (es : List Event) :
    persistSeq (Event.trxBegin t :: es) = persistSeq es := by
  simp [persistSeq, List.filterMap_cons, Event.persistRec]

theorem persistSeq_commit (t : TrxId) : persistSeq [Event.trxCommit t] = [] := rfl

theorem World.getRow_commitTrx (w : World) (t : TrxId) (r : Ref) :
    (w.commitTrx t).getRow r = w.getRow r := rfl

/-- Success analysis of `saveManyWork`: the parent's persist record comes
first, then one record per child in input order, each child record carrying
the parent's saved local-key value in its foreign-key field; the given child
rows themselves end persisted. -/
theorem saveManyWork_ok_spec (c : HasManyQueryClient) (related : List Ref)
    (t : TrxId) (w w2 : World) (u : Unit)
    (hok : saveManyWork c related t w = (w2, Except.ok u))
    (hgen : ∀ r ∈ related, ∀ d, w.getRow r = some d →
        lookupField d.generatedOnSave c.relation.foreignKey = none) :
    ∃ es prec crecs,
      w2.events = w.events ++ es ∧
      persistSeq es = prec :: crecs ∧
      prec.ref = c.parent ∧
      crecs.map PersistRecord.ref = related ∧
      (∀ rec ∈ crecs, lookupField rec.attributes c.relation.foreignKey
          = lookupField prec.attributes c.relation.localKey) ∧
      (∀ r ∈ related, ∃ d, w2.getRow r = some d ∧ d.persisted = true) ∧
      (∃ pd', w2.getRow c.parent = some pd' ∧ pd'.persisted = true) := by
  unfold saveManyWork at hok
  split at hok
  next w1 e heq => exact absurd hok (by simp)
  next w1 u1 heq =>
      rcases rowSave_ok_spec heq with ⟨pd0, hpd0, hw1⟩
      have hw1events : w1.events = w.events
          ++ [Event.persist
              ⟨c.parent, mergeFields pd0.attributes pd0.generatedOnSave⟩
              pd0.trx] := by
        rw [hw1, recordPersist_events, setRow_events_eq,
          (consumeBudget_eqs _).2.2.2.1, setTrx_events]
      have hg1parent : w1.getRow c.parent = some
          ⟨mergeFields pd0.attributes pd0.generatedOnSave, [], pd0.trx, true⟩ := by
        rw [hw1, World.getRow_recordPersist]
        apply World.getRow_setRow_self
        rw [World.getRow_consumeBudget]
        exact hpd0
      have hheap1 : ∀ r2, r2 ≠ c.parent → w1.getRow r2 = w.getRow r2 := by
        intro r2 hne
        rw [hw1, World.getRow_recordPersist, World.getRow_setRow_ne _ _ _ hne,
          World.getRow_consumeBudget, setTrx_getRow_ne _ _ _ hne]
      have hgen1 : ∀ r ∈ related, ∀ d, w1.getRow r = some d →
          lookupField d.generatedOnSave c.relation.foreignKey = none := by
        intro r hr d hgd
        by_cases hre : r = c.parent
        · subst hre
          rw [hg1parent] at hgd
          rw [← Option.some_inj.mp hgd]
          rfl
        · rw [hheap1 r hre] at hgd
          exact hgen r hr d hgd
      rcases saveManyLoop_ok_spec c.relation c.parent t related w1 w2 u hok
          ⟨mergeFields pd0.attributes pd0.generatedOnSave, [], pd0.trx, true⟩
          hg1parent rfl hgen1 with
        ⟨es2, recs2, hev2, hps2, hmap2, hfk2, hmono2, hrows2,
          pd', hpd', hpgen', hlk', hpers'⟩
      refine ⟨Event.persist
            ⟨c.parent, mergeFields pd0.attributes pd0.generatedOnSave⟩
            pd0.trx :: es2,
          ⟨c.parent, mergeFields pd0.attributes pd0.generatedOnSave⟩, recs2,
          ?_, ?_, rfl, hmap2, ?_, hrows2, pd', hpd', hpers' rfl⟩
      · rw [hev2, hw1events, List.append_assoc]
        rfl
      · rw [persistSeq_cons_persist, hps2]
      · intro rec hrec
        exact hfk2 rec hrec

/-- `save(related)` computes exactly as `saveMany([related])`. -/
theorem saveWork_eq_saveManyWork_singleton (c : HasManyQueryClient)
    (related : Ref) (t : TrxId) (w : World) :
    saveWork c related t w = saveManyWork c [related] t w := by
  unfold saveWork saveManyWork saveManyLoop
  split
  · rfl
  · split
    · rfl
    · split
      · assumption
      · rename_i heq
        rw [heq]
        exact rfl

theorem save_eq_saveMany_singleton (c : HasManyQueryClient) (related : Ref) :
    c.save related = c.saveMany [related] := by
  funext w
  unfold HasManyQueryClient.save HasManyQueryClient.saveMany
  rw [show saveWork c related = saveManyWork c [related] from
    funext fun t => funext fun w2 =>
      saveWork_eq_saveManyWork_singleton c related t w2]

/-- Success analysis of `saveMany` at operation level: the transaction
bookkeeping events are filtered away by `persistSeq`, leaving the parent's
record first and one record per child in input order. -/
theorem saveMany_ok_spec (c : HasManyQueryClient) (related : List Ref)
    (w w' : World) (u : Unit)
    (hok : c.saveMany related w = (w', Except.ok u))
    (hgen : ∀ r ∈ related, ∀ d, w.getRow r = some d →
        lookupField d.generatedOnSave c.relation.foreignKey = none) :
    ∃ es prec crecs,
      w'.events = w.events ++ es ∧
      persistSeq es = prec :: crecs ∧
      prec.ref = c.parent ∧
      crecs.map PersistRecord.ref = related ∧
      (∀ rec ∈ crecs, lookupField rec.attributes c.relation.foreignKey
          = lookupField prec.attributes c.relation.localKey) ∧
      (∀ r ∈ related, ∃ d, w'.getRow r = some d ∧ d.persisted = true) ∧
      (∃ pd', w'.getRow c.parent = some pd' ∧ pd'.persisted = true) := by
  unfold HasManyQueryClient.saveMany at hok
  cases hsrc : parentTrxOrClient w c.parent c.client with
  | trx t =>
      rw [hsrc] at hok
      have hok2 : saveManyWork c related t w = (w', Except.ok u) := hok
      exact saveManyWork_ok_spec c related t w w' u hok2 hgen
  | client cl =>
      rw [hsrc] at hok
      unfold managedTransaction at hok
      cases hres : saveManyWork c related (w.beginTrx).1 (w.beginTrx).2 with
      | mk w2 res =>
          rw [hres] at hok
          cases res with
          | error e => exact absurd hok (by simp)
          | ok u2 =>
              have hw' : w' = w2.commitTrx (w.beginTrx).1 :=
                (congrArg Prod.fst hok).symm
              have hgenb : ∀ r ∈ related, ∀ d, (w.beginTrx).2.getRow r = some d →
                  lookupField d.generatedOnSave c.relation.foreignKey = none := hgen
              rcases saveManyWork_ok_spec c related (w.beginTrx).1 (w.beginTrx).2
                  w2 u2 hres hgenb with
                ⟨es, prec, crecs, hev, hps, href, hmap, hfk, hrows, pd', hpd', hpp⟩
              refine ⟨Event.trxBegin w.nextTrx
                    :: (es ++ [Event.trxCommit w.nextTrx]), prec, crecs,
                  ?_, ?_, href, hmap, hfk, ?_, pd', ?_, hpp⟩
              · rw [hw', commitTrx_events, hev]
                have hb1 : (World.beginTrx w).1 = w.nextTrx := rfl
                rw [beginTrx_events]
                simp only [hb1, List.append_assoc, List.cons_append,
                  List.nil_append, List.singleton_append]
              · rw [persistSeq_cons_begin, persistSeq_append, persistSeq_commit,
                  List.append_nil, hps]
              · intro r hr
                rcases hrows r hr with ⟨d, hd, hp⟩
                refine ⟨d, ?_, hp⟩
                rw [hw', World.getRow_commitTrx]
                exact hd
              · rw [hw', World.getRow_commitTrx]
                exact hpd'

/-- The first persistence round trip in a trace segment, if any, is the
parent's. -/
def firstPersistIsParent (parent : Ref) : List Event → Prop
  | [] => True
  | Event.persist rec _ :: _ => rec.ref = parent
  | _ :: rest => firstPersistIsParent parent rest

/-- A write operation's whole appended trace persists the parent before any
child row. -/
def ParentPersistedFirst {A : Type} (parent : Ref)
    (op : World → World × Except OpError A) : Prop :=
  ∀ w, w.refsClosed →
    ∃ es, (op w).1.events = w.events ++ es ∧ firstPersistIsParent parent es

theorem parentPersistedFirst_of_workOK {A : Type} {parent : Ref}
    {work : TrxId → World → World × Except OpError A} (client : Client)
    (hw : WorkOK parent work)
    (op : World → World × Except OpError A)
    (hop : ∀ w, op w = managedTransaction (parentTrxOrClient w parent client) work w) :
    ParentPersistedFirst parent op := by
  intro w hrc
  rw [hop]
  cases hsrc : parentTrxOrClient w parent client with
  | trx t =>
      rcases (hw t w hrc).2.2 with ⟨es, hes, hstruct⟩
      refine ⟨es, hes, ?_⟩
      rcases hstruct with h0 | ⟨rec, rest, hcons, href⟩
      · rw [h0]
        trivial
      · rw [hcons]
        exact href
  | client cl =>
      unfold managedTransaction
      rcases (hw (w.beginTrx).1 (w.beginTrx).2 hrc).2.2 with ⟨es, hes, hstruct⟩
      cases hres : work (w.beginTrx).1 (w.beginTrx).2 with
      | mk w2 res =>
          rw [hres] at hes
          have hes2 : w2.events = (w.events ++ [Event.trxBegin w.nextTrx]) ++ es := by
            rw [← beginTrx_events w]
            exact hes
          have hfin : ∀ finale : Event, finale.persistRec = none →
              firstPersistIsParent parent
                (Event.trxBegin w.nextTrx :: (es ++ [finale])) := by
            intro finale hfr
            rcases hstruct with h0 | ⟨rec, rest, hcons, href⟩
            · rw [h0]
              show firstPersistIsParent parent [Event.trxBegin w.nextTrx, finale]
              cases finale with
              | persist rec tr => exact absurd hfr (by simp [Event.persistRec])
              | trxBegin t2 => trivial
              | trxCommit t2 => trivial
              | trxRollback t2 => trivial
              | relatedCall nm fs pls tr => trivial
            · rw [hcons]
              exact href
          cases res with
          | ok a =>
              refine ⟨Event.trxBegin w.nextTrx
                  :: (es ++ [Event.trxCommit w.nextTrx]), ?_, hfin _ rfl⟩
              show (w2.commitTrx (w.beginTrx).1).events = _
              rw [commitTrx_events, hes2]
              have hb1 : (World.beginTrx w).1 = w.nextTrx := rfl
              simp only [hb1, List.append_assoc, List.cons_append,
                List.nil_append, List.singleton_append]
          | error e =>
              refine ⟨Event.trxBegin w.nextTrx
                  :: (es ++ [Event.trxRollback w.nextTrx]), ?_, hfin _ rfl⟩
              show (w2.rollbackTrx (w.beginTrx).1).events = _
              rw [rollbackTrx_events, hes2]
              have hb1 : (World.beginTrx w).1 = w.nextTrx := rfl
              simp only [hb1, List.append_assoc, List.cons_append,
                List.nil_append, List.singleton_append]

/-- The row's pending storage-generated attributes do not touch the given
field (in particular, a child's generated keys do not overwrite its foreign
key). -/
def rowGenFkFree (w : World) (r : Ref) (fk : FieldName) : Prop :=
  ∀ d, w.getRow r = some d → lookupField d.generatedOnSave fk = none

/-- Executable form of `rowGenFkFree`. -/
def rowGenFkFreeB (w : World) (r : Ref) (fk : FieldName) : Bool :=
  match w.getRow r with
  | none => true
  | some d => (lookupField d.generatedOnSave fk).isNone

theorem rowGenFkFree_iff_B (w : World) (r : Ref) (fk : FieldName) :
    rowGenFkFree w r fk ↔ rowGenFkFreeB w r fk = true := by
  unfold rowGenFkFree rowGenFkFreeB
  cases hg : w.getRow r with
  | none =>
      constructor
      · intro _
        rfl
      · intro _ d hd
        exact Option.noConfusion hd
  | some d =>
      constructor
      · intro h
        have hx := h d rfl
        show (lookupField d.generatedOnSave fk).isNone = true
        rw [hx]
        rfl
      · intro hb d2 hd2
        have hb2 : (lookupField d.generatedOnSave fk).isNone = true := hb
        rw [← Option.some_inj.mp hd2]
        exact Option.isNone_iff_eq_none.mp hb2

instance (w : World) (r : Ref) (fk : FieldName) : Decidable (rowGenFkFree w r fk) :=
  decidable_of_iff _ (rowGenFkFree_iff_B w r fk).symm

/-- C5 -- Within every write operation the parent row is persisted before
any child row; `saveMany` hydrates and persists the children one at a time in
input order; and the persisted foreign key of each child equals the parent's
local-key value as of the parent's own save — hydration runs after the
parent's persist, so it captures keys the storage layer generates on the
parent's insert. -/
theorem parent_before_children_and_hydration (c : HasManyQueryClient) :
    (∀ related, ParentPersistedFirst c.parent (c.save related)) ∧
    (∀ related, ParentPersistedFirst c.parent (c.saveMany related)) ∧
    (∀ values, ParentPersistedFirst c.parent (c.create values)) ∧
    (∀ values, ParentPersistedFirst c.parent (c.createMany values)) ∧
    (∀ search savePayload,
      ParentPersistedFirst c.parent (c.firstOrCreate search savePayload)) ∧
    (∀ search updatePayload,
      ParentPersistedFirst c.parent (c.updateOrCreate search updatePayload)) ∧
    (∀ payload predicate,
      ParentPersistedFirst c.parent (c.fetchOrCreateMany payload predicate)) ∧
    (∀ payload predicate,
      ParentPersistedFirst c.parent (c.updateOrCreateMany payload predicate)) ∧
    (∀ related w w' (u : Unit),
      (∀ r ∈ related, rowGenFkFree w r c.relation.foreignKey) →
      c.saveMany related w = (w', Except.ok u) →
      ∃ es prec crecs,
        w'.events = w.events ++ es ∧
        persistSeq es = prec :: crecs ∧
        prec.ref = c.parent ∧
        crecs.map PersistRecord.ref = related ∧
        ∀ rec ∈ crecs, lookupField rec.attributes c.relation.foreignKey
            = lookupField prec.attributes c.relation.localKey) ∧
    (∀ related w w' (u : Unit),
      rowGenFkFree w related c.relation.foreignKey →
      c.save related w = (w', Except.ok u) →
      ∃ es prec crec,
        w'.events = w.events ++ es ∧
        persistSeq es = [prec, crec] ∧
        prec.ref = c.parent ∧ crec.ref = related ∧
        lookupField crec.attributes c.relation.foreignKey
          = lookupField prec.attributes c.relation.localKey) := by
  refine ⟨?_, ?_, ?_, ?_, ?_, ?_, ?_, ?_, ?_, ?_⟩
  · intro related
    exact parentPersistedFirst_of_workOK c.client (workOK_saveWork c related) _
      (fun w => rfl)
  · intro related
    exact parentPersistedFirst_of_workOK c.client (workOK_saveManyWork c related) _
      (fun w => rfl)
  · intro values
    exact parentPersistedFirst_of_workOK c.client (workOK_createWork c values) _
      (fun w => rfl)
  · intro values
    exact parentPersistedFirst_of_workOK c.client (workOK_createManyWork c values) _
      (fun w => rfl)
  · intro search savePayload
    exact parentPersistedFirst_of_workOK c.client
      (workOK_firstOrCreateWork c search savePayload) _ (fun w => rfl)
  · intro search updatePayload
    exact parentPersistedFirst_of_workOK c.client
      (workOK_updateOrCreateWork c search updatePayload) _ (fun w => rfl)
  · intro payload predicate
    exact parentPersistedFirst_of_workOK c.client
      (workOK_fetchOrCreateManyWork c payload predicate) _ (fun w => rfl)
  · intro payload predicate
    exact parentPersistedFirst_of_workOK c.client
      (workOK_updateOrCreateManyWork c payload predicate) _ (fun w => rfl)
  · intro related w w' u hgen hok
    rcases saveMany_ok_spec c related w w' u hok hgen with
      ⟨es, prec, crecs, hev, hps, href, hmap, hfk, _, _⟩
    exact ⟨es, prec, crecs, hev, hps, href, hmap, hfk⟩
  · intro related w w' u hgen hok
    rw [save_eq_saveMany_singleton] at hok
    have hgen1 : ∀ r ∈ [related], rowGenFkFree w r c.relation.foreignKey := by
      intro r hr
      rcases List.mem_singleton.mp hr with rfl
      exact hgen
    rcases saveMany_ok_spec c [related] w w' u hok hgen1 with
      ⟨es, prec, crecs, hev, hps, href, hmap, hfk, _, _⟩
    cases crecs with
    | nil => exact absurd hmap (by simp)
    | cons crec rest =>
        cases rest with
        | cons c2 r2 => exact absurd hmap (by simp)
        | nil =>
            have hcref : crec.ref = related := by
              simpa using hmap
            exact ⟨es, prec, crec, hev, hps, href, hcref,
              hfk crec (List.mem_singleton_self _)⟩

/-- A concrete run for the hydration-order check: the parent has no local
key yet — the storage layer assigns `id = 42` on its insert — and both
children end up recorded with `author_id = 42`. -/
def wSaveSample : World :=
  ⟨[(0, ⟨[], [("id", 42)], none, false⟩),
    (1, ⟨[("title", 7)], [], none, false⟩),
    (2, ⟨[("title", 8)], [], none, false⟩)],
   [], [], [], 0, 3, none⟩

def cSaveSample : HasManyQueryClient :=
  ⟨⟨"id", "author_id", "posts.author_id", none⟩, 0, ⟨0⟩⟩

/-- Concrete check for C5: `saveMany` persists the parent first, the two
children in input order, each recorded with the parent's freshly generated
local key in the foreign-key field. -/
theorem parent_before_children_and_hydration_witness :
    ∃ es prec crecs,
      ((cSaveSample.saveMany [1, 2] wSaveSample).1).events
          = wSaveSample.events ++ es ∧
      persistSeq es = prec :: crecs ∧
      prec.ref = cSaveSample.parent ∧
      crecs.map PersistRecord.ref = [1, 2] ∧
      ∀ rec ∈ crecs, lookupField rec.attributes cSaveSample.relation.foreignKey
          = lookupField prec.attributes cSaveSample.relation.localKey :=
  (parent_before_children_and_hydration cSaveSample).2.2.2.2.2.2.2.2.1 [1, 2]
    wSaveSample ((cSaveSample.saveMany [1, 2] wSaveSample).1) ()
    (by decide) (by decide)

/-- C7 -- `save(child)` persists the very child row object passed in — after
a successful call the same heap object is marked persisted, and the persist
trace is exactly the parent record followed by the child's record (no copy
is created); `saveMany(children)` does the same for every row of the input
sequence, in order. -/
theorem save_saveMany_persist_in_place (c : HasManyQueryClient) :
    (∀ related w w' (u : Unit),
      rowGenFkFree w related c.relation.foreignKey →
      c.save related w = (w', Except.ok u) →
      (∃ d, w'.getRow related = some d ∧ d.persisted = true) ∧
      (∃ pd', w'.getRow c.parent = some pd' ∧ pd'.persisted = true) ∧
      (∃ es recs, w'.events = w.events ++ es ∧ persistSeq es = recs ∧
        recs.map PersistRecord.ref = [c.parent, related])) ∧
    (∀ related w w' (u : Unit),
      (∀ r ∈ related, rowGenFkFree w r c.relation.foreignKey) →
      c.saveMany related w = (w', Except.ok u) →
      (∀ r ∈ related, ∃ d, w'.getRow r = some d ∧ d.persisted = true) ∧
      (∃ pd', w'.getRow c.parent = some pd' ∧ pd'.persisted = true) ∧
      (∃ es recs, w'.events = w.events ++ es ∧ persistSeq es = recs ∧
        recs.map PersistRecord.ref = c.parent :: related)) := by
  constructor
  · intro related w w' u hgen hok
    rw [save_eq_saveMany_singleton] at hok
    have hgen1 : ∀ r ∈ [related], rowGenFkFree w r c.relation.foreignKey := by
      intro r hr
      rcases List.mem_singleton.mp hr with rfl
      exact hgen
    rcases saveMany_ok_spec c [related] w w' u hok hgen1 with
      ⟨es, prec, crecs, hev, hps, href, hmap, hfk, hrows, hparent⟩
    refine ⟨hrows related (List.mem_singleton_self _), hparent,
      es, prec :: crecs, hev, hps, ?_⟩
    show prec.ref :: crecs.map PersistRecord.ref = [c.parent, related]
    rw [href, hmap]
  · intro related w w' u hgen hok
    rcases saveMany_ok_spec c related w w' u hok hgen with
      ⟨es, prec, crecs, hev, hps, href, hmap, hfk, hrows, hparent⟩
    refine ⟨hrows, hparent, es, prec :: crecs, hev, hps, ?_⟩
    show prec.ref :: crecs.map PersistRecord.ref = c.parent :: related
    rw [href, hmap]

/-- A concrete run for the persist-in-place check. -/
def wInPlaceSample : World :=
  ⟨[(0, ⟨[("id", 1)], [], none, false⟩), (1, ⟨[("title", 7)], [], none, false⟩)],
   [], [], [], 0, 2, none⟩

def cInPlaceSample : HasManyQueryClient :=
  ⟨⟨"id", "author_id", "posts.author_id", none⟩, 0, ⟨0⟩⟩

/-- Concrete check for C7: after `save(child)` the very child object (ref 1)
is persisted and the persist trace is `[parent, child]`. -/
theorem save_saveMany_persist_in_place_witness :
    (∃ d, ((cInPlaceSample.save 1 wInPlaceSample).1).getRow 1 = some d ∧
      d.persisted = true) ∧
    (∃ pd', ((cInPlaceSample.save 1 wInPlaceSample).1).getRow 0 = some pd' ∧
      pd'.persisted = true) ∧
    (∃ es recs, ((cInPlaceSample.save 1 wInPlaceSample).1).events
        = wInPlaceSample.events ++ es ∧ persistSeq es = recs ∧
      recs.map PersistRecord.ref = [0, 1]) :=
  (save_saveMany_persist_in_place cInPlaceSample).1 1 wInPlaceSample
    ((cInPlaceSample.save 1 wInPlaceSample).1) () (by decide) (by decide)


/-! ## Heap frame: which references an operation can write -/

/-- The operation leaves the heap binding of `keep` untouched (for any `keep`
strictly below the allocator, i.e. any pre-existing object). -/
def heapFrame (keep : Ref) (w w' : World) : Prop :=
  keep < w.nextRef → (w'.getRow keep = w.getRow keep ∧ keep < w'.nextRef)

theorem heapFrame_refl (keep : Ref) (w : World) : heapFrame keep w w :=
  fun hk => ⟨rfl, hk⟩

theorem heapFrame_trans {keep : Ref} {w w1 w2 : World}
    (h1 : heapFrame keep w w1) (h2 : heapFrame keep w1 w2) :
    heapFrame keep w w2 := by
  intro hk
  rcases h1 hk with ⟨hg1, hn1⟩
  rcases h2 hn1 with ⟨hg2, hn2⟩
  exact ⟨hg2.trans hg1, hn2⟩

theorem heapFrame_of_eq {keep : Ref} {w w' : World} (hh : w'.heap = w.heap)
    (hn : w'.nextRef = w.nextRef) : heapFrame keep w w' := by
  intro hk
  exact ⟨World.getRow_eq_of_heap_eq hh keep, hn ▸ hk⟩

theorem heapFrame_consumeBudget (keep : Ref) (w : World) :
    heapFrame keep w (w.consumeBudget).1 :=
  heapFrame_of_eq (consumeBudget_eqs w).1 (consumeBudget_eqs w).2.2.2.2.2

theorem heapFrame_recordPersist (keep : Ref) (w : World) (rec : PersistRecord)
    (t : Option TrxId) : heapFrame keep w (w.recordPersist rec t) :=
  heapFrame_of_eq (recordPersist_heap w rec t) (by unfold World.recordPersist; cases t <;> rfl)

theorem heapFrame_setRow (keep : Ref) (w : World) (r : Ref) (d : RowData)
    (h : keep ≠ r) : heapFrame keep w (w.setRow r d) := by
  intro hk
  exact ⟨World.getRow_setRow_ne w r d h, hk⟩

theorem heapFrame_alloc (keep : Ref) (w : World) (d : RowData) :
    heapFrame keep w (w.allocRow d).2 := by
  intro hk
  exact ⟨World.getRow_alloc_of_ne w d (Nat.ne_of_lt hk), Nat.lt_succ_of_lt hk⟩

theorem heapFrame_rowSave (keep : Ref) (r : Ref) (w : World) (h : keep ≠ r) :
    heapFrame keep w (rowSave r w).1 := by
  unfold rowSave
  split
  · exact heapFrame_refl keep w
  · split
    next w1 heq =>
        have h1 := heapFrame_consumeBudget keep w
        rw [heq] at h1
        exact h1
    next w1 heq =>
        have h1 : heapFrame keep w w1 := by
          have h0 := heapFrame_consumeBudget keep w
          rw [heq] at h0
          exact h0
        exact heapFrame_trans h1 (heapFrame_trans
          (heapFrame_setRow keep w1 r _ h) (heapFrame_recordPersist keep _ _ _))

theorem heapFrame_setTrx (keep : Ref) (r : Ref) (t : TrxId) (w : World)
    (h : keep ≠ r) : heapFrame keep w (setTrx r t w) := by
  unfold setTrx
  split
  · exact heapFrame_setRow keep w r _ h
  · exact heapFrame_refl keep w

theorem heapFrame_hydrate (keep : Ref) (rel : HasMany) (p child : Ref)
    (w : World) (h : keep ≠ child) :
    heapFrame keep w (hydrateForPersistance rel p child w).1 := by
  unfold hydrateForPersistance
  split
  · exact heapFrame_refl keep w
  · split
    · exact heapFrame_refl keep w
    · exact heapFrame_setRow keep w child _ h

theorem heapFrame_objAssignCopy (keep : Ref) (src : Ref) (w : World) :
    heapFrame keep w (objAssignCopy src w).1 := by
  unfold objAssignCopy
  split
  · exact heapFrame_refl keep w
  · exact heapFrame_alloc keep w _

theorem heapFrame_createRow (keep : Ref) (attrs : Fields) (t : TrxId) (w : World) :
    heapFrame keep w (createRow attrs t w).1 := by
  intro hk
  have h1 : heapFrame keep w (w.allocRow ⟨attrs, [], some t, false⟩).2 :=
    heapFrame_alloc keep w _
  have h2 : heapFrame keep (w.allocRow ⟨attrs, [], some t, false⟩).2
      (rowSave w.nextRef (w.allocRow ⟨attrs, [], some t, false⟩).2).1 :=
    heapFrame_rowSave keep w.nextRef _ (Nat.ne_of_lt hk)
  have h3 := heapFrame_trans h1 h2
  unfold createRow
  split
  next w2 e heq =>
      rw [heq] at h3
      exact h3 hk
  next w2 rr heq =>
      rw [heq] at h3
      exact h3 hk

theorem heapFrame_tryPersist (keep : Ref) (rec : PersistRecord) (t : Option TrxId)
    (w : World) : heapFrame keep w (tryPersist rec t w).1 := by
  unfold tryPersist
  split
  next w1 heq =>
      have h1 := heapFrame_consumeBudget keep w
      rw [heq] at h1
      exact h1
  next w1 heq =>
      have h1 : heapFrame keep w w1 := by
        have h0 := heapFrame_consumeBudget keep w
        rw [heq] at h0
        exact h0
      exact heapFrame_trans h1 (heapFrame_recordPersist keep w1 rec t)

theorem heapFrame_relatedCreate (keep : Ref) (v : Ref) (t : TrxId) (w : World) :
    heapFrame keep w (relatedCreate v t w).1 := by
  unfold relatedCreate
  split
  · exact heapFrame_refl keep w
  · exact heapFrame_createRow keep _ t w

theorem heapFrame_relatedCreateMany (keep : Ref) (t : TrxId) (vals : List Ref) :
    ∀ w, heapFrame keep w (relatedCreateMany vals t w).1 := by
  induction vals with
  | nil => intro w; exact heapFrame_refl keep w
  | cons v rest ih =>
      intro w
      unfold relatedCreateMany
      split
      next w1 e heq =>
          have h1 := heapFrame_relatedCreate keep v t w
          rw [heq] at h1
          exact h1
      next w1 r heq =>
          have h1 : heapFrame keep w w1 := by
            have h0 := heapFrame_relatedCreate keep v t w
            rw [heq] at h0
            exact h0
          split
          next w2 e2 heq2 =>
              have h2 : heapFrame keep w1 w2 := by
                have h0 := ih w1
                rw [heq2] at h0
                exact h0
              exact heapFrame_trans h1 h2
          next w2 rs heq2 =>
              have h2 : heapFrame keep w1 w2 := by
                have h0 := ih w1
                rw [heq2] at h0
                exact h0
              exact heapFrame_trans h1 h2

theorem heapFrame_fetchOrCreateOne (keep : Ref) (fields : List FieldName)
    (v : Ref) (t : TrxId) (w : World) :
    heapFrame keep w (fetchOrCreateOne fields v t w).1 := by
  unfold fetchOrCreateOne
  split
  · exact heapFrame_refl keep w
  · split
    · exact heapFrame_refl keep w
    · exact heapFrame_createRow keep _ t w

theorem heapFrame_updateOrCreateOne (keep : Ref) (fields : List FieldName)
    (v : Ref) (t : TrxId) (w : World) :
    heapFrame keep w (updateOrCreateOne fields v t w).1 := by
  unfold updateOrCreateOne
  split
  · exact heapFrame_refl keep w
  next d hd =>
      split
      next rec hrec =>
          split
          all_goals
            rename_i w2 res heq
            have h1 := heapFrame_tryPersist keep
              ⟨rec.ref, mergeFields rec.attributes d.attributes⟩ (some t) w
            rw [heq] at h1
            exact h1
      next hrec => exact heapFrame_createRow keep _ t w

theorem heapFrame_fetchOrCreateLoop (keep : Ref) (fields : List FieldName)
    (t : TrxId) (payload : List Ref) :
    ∀ w, heapFrame keep w (fetchOrCreateLoop fields payload t w).1 := by
  induction payload with
  | nil => intro w; exact heapFrame_refl keep w
  | cons v rest ih =>
      intro w
      unfold fetchOrCreateLoop
      split
      next w1 e heq =>
          have h1 := heapFrame_fetchOrCreateOne keep fields v t w
          rw [heq] at h1
          exact h1
      next w1 r heq =>
          have h1 : heapFrame keep w w1 := by
            have h0 := heapFrame_fetchOrCreateOne keep fields v t w
            rw [heq] at h0
            exact h0
          split
          next w2 e2 heq2 =>
              have h2 : heapFrame keep w1 w2 := by
                have h0 := ih w1
                rw [heq2] at h0
                exact h0
              exact heapFrame_trans h1 h2
          next w2 rs heq2 =>
              have h2 : heapFrame keep w1 w2 := by
                have h0 := ih w1
                rw [heq2] at h0
                exact h0
              exact heapFrame_trans h1 h2

theorem heapFrame_updateOrCreateLoop (keep : Ref) (fields : List FieldName)
    (t : TrxId) (payload : List Ref) :
    ∀ w, heapFrame keep w (updateOrCreateLoop fields payload t w).1 := by
  induction payload with
  | nil => intro w; exact heapFrame_refl keep w
  | cons v rest ih =>
      intro w
      unfold updateOrCreateLoop
      split
      next w1 e heq =>
          have h1 := heapFrame_updateOrCreateOne keep fields v t w
          rw [heq] at h1
          exact h1
      next w1 r heq =>
          have h1 : heapFrame keep w w1 := by
            have h0 := heapFrame_updateOrCreateOne keep fields v t w
            rw [heq] at h0
            exact h0
          split
          next w2 e2 heq2 =>
              have h2 : heapFrame keep w1 w2 := by
                have h0 := ih w1
                rw [heq2] at h0
                exact h0
              exact heapFrame_trans h1 h2
          next w2 rs heq2 =>
              have h2 : heapFrame keep w1 w2 := by
                have h0 := ih w1
                rw [heq2] at h0
                exact h0
              exact heapFrame_trans h1 h2

theorem heapFrame_recordRelatedCall (keep : Ref) (w : World) (name : String)
    (fields : List FieldName) (payloads : List Fields) (t : TrxId) :
    heapFrame keep w (w.recordRelatedCall name fields payloads t) :=
  heapFrame_of_eq rfl rfl

theorem heapFrame_relatedFetchOrCreateMany (keep : Ref) (fields : List FieldName)
    (payload : List Ref) (t : TrxId) (w : World) :
    heapFrame keep w (relatedFetchOrCreateMany fields payload t w).1 :=
  heapFrame_trans (heapFrame_recordRelatedCall keep w _ fields _ t)
    (heapFrame_fetchOrCreateLoop keep fields t payload _)

theorem heapFrame_relatedUpdateOrCreateMany (keep : Ref) (fields : List FieldName)
    (payload : List Ref) (t : TrxId) (w : World) :
    heapFrame keep w (relatedUpdateOrCreateMany fields payload t w).1 :=
  heapFrame_trans (heapFrame_recordRelatedCall keep w _ fields _ t)
    (heapFrame_updateOrCreateLoop keep fields t payload _)

theorem heapFrame_copyAndHydrateAll (keep : Ref) (rel : HasMany) (parent : Ref)
    (vals : List Ref) : ∀ w, heapFrame keep w (copyAndHydrateAll rel parent vals w).1 := by
  induction vals with
  | nil => intro w; exact heapFrame_refl keep w
  | cons v rest ih =>
      intro w
      unfold copyAndHydrateAll
      split
      next w1 e heq =>
          have h1 := heapFrame_objAssignCopy keep v w
          rw [heq] at h1
          exact h1
      next w1 copy heq =>
          obtain ⟨d, hsrc, hcopy, hw1⟩ := objAssignCopy_ok_spec heq
          have h1 : heapFrame keep w w1 := by
            have h0 := heapFrame_objAssignCopy keep v w
            rw [heq] at h0
            exact h0
          have h2 : heapFrame keep w (hydrateForPersistance rel parent copy w1).1 := by
            intro hk
            have hne : keep ≠ copy := hcopy ▸ Nat.ne_of_lt hk
            exact heapFrame_trans h1 (heapFrame_hydrate keep rel parent copy w1 hne) hk
          split
          next w2 e2 heq2 =>
              rw [heq2] at h2
              exact h2
          next w2 u heq2 =>
              have h2' : heapFrame keep w w2 := by
                rw [heq2] at h2
                exact h2
              have h3 := heapFrame_trans h2' (ih w2)
              split
              next w3 e3 heq3 =>
                  rw [heq3] at h3
                  exact h3
              next w3 cs heq3 =>
                  rw [heq3] at h3
                  exact h3

theorem heapFrame_createWork (keep : Ref) (c : HasManyQueryClient) (values : Ref)
    (trx : TrxId) (w : World) (hp : keep ≠ c.parent) :
    heapFrame keep w (createWork c values trx w).1 := by
  have hhead : heapFrame keep w (rowSave c.parent (setTrx c.parent trx w)).1 :=
    heapFrame_trans (heapFrame_setTrx keep c.parent trx w hp)
      (heapFrame_rowSave keep c.parent _ hp)
  unfold createWork
  split
  next w1 e heq =>
      rw [heq] at hhead
      exact hhead
  next w1 u heq =>
      have h1 : heapFrame keep w w1 := by
        rw [heq] at hhead
        exact hhead
      split
      next w2 e2 heq2 =>
          have h2 : heapFrame keep w1 w2 := by
            have h0 := heapFrame_objAssignCopy keep values w1
            rw [heq2] at h0
            exact h0
          exact heapFrame_trans h1 h2
      next w2 vtp heq2 =>
          obtain ⟨d, hsrc, hvtp, hw2⟩ := objAssignCopy_ok_spec heq2
          have h2 : heapFrame keep w1 w2 := by
            have h0 := heapFrame_objAssignCopy keep values w1
            rw [heq2] at h0
            exact h0
          have h12 := heapFrame_trans h1 h2
          have h3 : heapFrame keep w (hydrateForPersistance c.relation c.parent vtp w2).1 := by
            intro hk
            have hk1 : keep < w1.nextRef := (h1 hk).2
            have hne : keep ≠ vtp := hvtp ▸ Nat.ne_of_lt hk1
            exact heapFrame_trans h12
              (heapFrame_hydrate keep c.relation c.parent vtp w2 hne) hk
          split
          next w3 e3 heq3 =>
              rw [heq3] at h3
              exact h3
          next w3 u3 heq3 =>
              have h3' : heapFrame keep w w3 := by
                rw [heq3] at h3
                exact h3
              exact heapFrame_trans h3' (heapFrame_relatedCreate keep vtp trx w3)

theorem heapFrame_createManyWork (keep : Ref) (c : HasManyQueryClient)
    (values : List Ref) (trx : TrxId) (w : World) (hp : keep ≠ c.parent) :
    heapFrame keep w (createManyWork c values trx w).1 := by
  have hhead : heapFrame keep w (rowSave c.parent (setTrx c.parent trx w)).1 :=
    heapFrame_trans (heapFrame_setTrx keep c.parent trx w hp)
      (heapFrame_rowSave keep c.parent _ hp)
  unfold createManyWork
  split
  next w1 e heq =>
      rw [heq] at hhead
      exact hhead
  next w1 u heq =>
      have h1 : heapFrame keep w w1 := by
        rw [heq] at hhead
        exact hhead
      have h2 := heapFrame_trans h1 (heapFrame_copyAndHydrateAll keep c.relation c.parent values w1)
      split
      next w2 e2 heq2 =>
          rw [heq2] at h2
          exact h2
      next w2 vtp heq2 =>
          have h2' : heapFrame keep w w2 := by
            rw [heq2] at h2
            exact h2
          exact heapFrame_trans h2' (heapFrame_relatedCreateMany keep trx vtp w2)

theorem heapFrame_managed {A : Type} (keep : Ref) (source : TrxOrClient)
    (work : TrxId → World → World × Except OpError A)
    (hw : ∀ t w2, heapFrame keep w2 (work t w2).1) (w : World) :
    heapFrame keep w (managedTransaction source work w).1 := by
  unfold managedTransaction
  split
  · exact hw _ w
  · have hb : heapFrame keep w (w.beginTrx).2 := heapFrame_of_eq rfl rfl
    have hwk := heapFrame_trans hb (hw (w.beginTrx).1 (w.beginTrx).2)
    split
    next w2 a heq =>
        have h1 : heapFrame keep w w2 := by
          rw [heq] at hwk
          exact hwk
        exact heapFrame_trans h1 (heapFrame_of_eq rfl rfl)
    next w2 e heq =>
        have h1 : heapFrame keep w w2 := by
          rw [heq] at hwk
          exact hwk
        exact heapFrame_trans h1 (heapFrame_of_eq rfl rfl)

theorem heapFrame_create (keep : Ref) (c : HasManyQueryClient) (values : Ref)
    (w : World) (hp : keep ≠ c.parent) :
    heapFrame keep w (c.create values w).1 := by
  unfold HasManyQueryClient.create
  exact heapFrame_managed keep _ _
    (fun t w2 => heapFrame_createWork keep c values t w2 hp) w

theorem heapFrame_createMany (keep : Ref) (c : HasManyQueryClient)
    (values : List Ref) (w : World) (hp : keep ≠ c.parent) :
    heapFrame keep w (c.createMany values w).1 := by
  unfold HasManyQueryClient.createMany
  exact heapFrame_managed keep _ _
    (fun t w2 => heapFrame_createManyWork keep c values t w2 hp) w

/-- Successful `hydrateAll`: the parent row is untouched, the allocator is
unchanged, rows outside the payload are untouched, and every payload row ends
carrying the parent's local-key value in its foreign-key field. -/
theorem hydrateAll_ok_spec (rel : HasMany) (parent : Ref) :
    ∀ (rows : List Ref) (w w' : World) (u : Unit),
    hydrateAll rel parent rows w = (w', .ok u) →
    (∀ r ∈ rows, r ≠ parent) →
    ∀ pd, w.getRow parent = some pd →
    w'.getRow parent = some pd ∧
    w'.nextRef = w.nextRef ∧
    (∀ r2, r2 ∉ rows → w'.getRow r2 = w.getRow r2) ∧
    (∀ r ∈ rows, ∃ d, w'.getRow r = some d ∧
      lookupField d.attributes rel.foreignKey
        = lookupField pd.attributes rel.localKey ∧
      (lookupField pd.attributes rel.localKey).isSome = true) := by
  intro rows
  induction rows with
  | nil =>
      intro w w' u h hne pd hpd
      have hw : w = w' := congrArg Prod.fst h
      subst hw
      exact ⟨hpd, rfl, fun _ _ => rfl, fun r hr => absurd hr (List.not_mem_nil r)⟩
  | cons row rest ih =>
      intro w w' u h hne pd hpd
      unfold hydrateAll at h
      split at h
      next w1 e heq => exact absurd h (by simp)
      next w1 u1 heq =>
          obtain ⟨v, cd, hgv, hgchild, hw1⟩ := hydrate_ok_spec heq
          obtain ⟨pd', hpd', hlk⟩ := getValue_ok_spec hgv
          have hpdeq : pd' = pd := Option.some_inj.mp (hpd'.symm.trans hpd)
          have hlk2 : lookupField pd.attributes rel.localKey = some v := hpdeq ▸ hlk
          have hrowne : row ≠ parent := hne row (List.mem_cons_self row rest)
          have hpd1 : w1.getRow parent = some pd := by
            rw [hw1, World.getRow_setRow_ne w row _ (Ne.symm hrowne)]
            exact hpd
          obtain ⟨hppar, hnext, huntouched, hall⟩ :=
            ih w1 w' u h (fun r hr => hne r (List.mem_cons_of_mem row hr)) pd hpd1
          have hn1 : w1.nextRef = w.nextRef := by rw [hw1]; rfl
          refine ⟨hppar, hnext.trans hn1, ?_, ?_⟩
          · intro r2 hr2
            have hr2row : r2 ≠ row := fun hh => hr2 (hh ▸ List.mem_cons_self row rest)
            have hr2rest : r2 ∉ rest := fun hh => hr2 (List.mem_cons_of_mem row hh)
            rw [huntouched r2 hr2rest, hw1, World.getRow_setRow_ne w row _ hr2row]
          · intro r hr
            rcases List.mem_cons.mp hr with hr | hr
            · subst hr
              by_cases hmem : r ∈ rest
              · exact hall r hmem
              · refine ⟨⟨setField cd.attributes rel.foreignKey v, cd.generatedOnSave,
                  cd.trx, cd.persisted⟩, ?_, ?_, ?_⟩
                · rw [huntouched r hmem, hw1]
                  exact World.getRow_setRow_self w r _ hgchild
                · show lookupField (setField cd.attributes rel.foreignKey v)
                      rel.foreignKey = lookupField pd.attributes rel.localKey
                  rw [lookupField_setField_self, hlk2]
                · rw [hlk2]; rfl
            · exact hall r hr

/-- Claim-spec predicate: the payload object `r` carries the parent's
local-key value (as saved, `pd`) in its foreign-key field. -/
def PayloadHydrated (rel : HasMany) (w' : World) (pd : RowData) (r : Ref) : Prop :=
  ∃ d, w'.getRow r = some d ∧
    lookupField d.attributes rel.foreignKey = lookupField pd.attributes rel.localKey ∧
    (lookupField pd.attributes rel.localKey).isSome = true

/-- After the shared `setTrx; parent.save(); hydrateAll` head of the two
batch operations, the parent's saved row is in place and every payload row
carries its local key in the foreign-key field. -/
theorem setTrxSave_hydrateAll_post (c : HasManyQueryClient) (payload : List Ref)
    (trx : TrxId) {w w1 w2 : World} {u1 u2 : Unit}
    (hclosed : w.refsClosed)
    (hne : ∀ r ∈ payload, r ≠ c.parent)
    (heq1 : rowSave c.parent (setTrx c.parent trx w) = (w1, Except.ok u1))
    (heq2 : hydrateAll c.relation c.parent payload w1 = (w2, Except.ok u2)) :
    ∃ pd, w2.getRow c.parent = some pd ∧ w2.refsClosed ∧
      ∀ r ∈ payload, PayloadHydrated c.relation w2 pd r := by
  obtain ⟨row, hgrow, hw1⟩ := rowSave_ok_spec heq1
  have hpd1 : w1.getRow c.parent
      = some ⟨mergeFields row.attributes row.generatedOnSave, [], row.trx, true⟩ := by
    rw [hw1, World.getRow_recordPersist]
    exact World.getRow_setRow_self _ c.parent _
      (by rw [World.getRow_consumeBudget]; exact hgrow)
  have hc1 : w1.refsClosed := by
    have hs := stepOK_setTrxSave c.parent trx w hclosed
    rw [heq1] at hs
    exact hs.refs_closed
  obtain ⟨hppar2, hnext2, hunt2, hall2⟩ :=
    hydrateAll_ok_spec c.relation c.parent payload w1 w2 u2 heq2 hne _ hpd1
  have hc2 : w2.refsClosed := by
    have hs := stepOK_hydrateAll c.relation c.parent trx payload w1 hc1
    rw [heq2] at hs
    exact hs.refs_closed
  exact ⟨_, hppar2, hc2, hall2⟩

theorem fetchOrCreateManyWork_post (c : HasManyQueryClient) (payload : List Ref)
    (pred : PredicateArg) (trx : TrxId) {w w' : World} {rs : List Ref}
    (hclosed : w.refsClosed)
    (hne : ∀ r ∈ payload, r ≠ c.parent)
    (h : fetchOrCreateManyWork c payload pred trx w = (w', Except.ok rs)) :
    ∃ pd, w'.getRow c.parent = some pd ∧
      ∀ r ∈ payload, PayloadHydrated c.relation w' pd r := by
  unfold fetchOrCreateManyWork at h
  split at h
  next w1 e heq1 => exact absurd h (by simp)
  next w1 u1 heq1 =>
      split at h
      next w2 e2 heq2 => exact absurd h (by simp)
      next w2 u2 heq2 =>
          obtain ⟨pd, hppar, hc2, hall⟩ :=
            setTrxSave_hydrateAll_post c payload trx hclosed hne heq1 heq2
          refine ⟨pd, ?_, ?_⟩
          · have hfr := heapFrame_relatedFetchOrCreateMany c.parent
              (normalizePredicate pred ++ [c.relation.foreignKey]) payload trx w2
            rw [h] at hfr
            have hg := (hfr (World.lt_nextRef_of_getRow w2 hc2 hppar)).1
            rw [hg]
            exact hppar
          · intro r hr
            obtain ⟨d, hgr, hfk, hsome⟩ := hall r hr
            have hfr := heapFrame_relatedFetchOrCreateMany r
              (normalizePredicate pred ++ [c.relation.foreignKey]) payload trx w2
            rw [h] at hfr
            have hg := (hfr (World.lt_nextRef_of_getRow w2 hc2 hgr)).1
            exact ⟨d, by rw [hg]; exact hgr, hfk, hsome⟩

theorem updateOrCreateManyWork_post (c : HasManyQueryClient) (payload : List Ref)
    (pred : PredicateArg) (trx : TrxId) {w w' : World} {rs : List Ref}
    (hclosed : w.refsClosed)
    (hne : ∀ r ∈ payload, r ≠ c.parent)
    (h : updateOrCreateManyWork c payload pred trx w = (w', Except.ok rs)) :
    ∃ pd, w'.getRow c.parent = some pd ∧
      ∀ r ∈ payload, PayloadHydrated c.relation w' pd r := by
  unfold updateOrCreateManyWork at h
  split at h
  next w1 e heq1 => exact absurd h (by simp)
  next w1 u1 heq1 =>
      split at h
      next w2 e2 heq2 => exact absurd h (by simp)
      next w2 u2 heq2 =>
          obtain ⟨pd, hppar, hc2, hall⟩ :=
            setTrxSave_hydrateAll_post c payload trx hclosed hne heq1 heq2
          refine ⟨pd, ?_, ?_⟩
          · have hfr := heapFrame_relatedUpdateOrCreateMany c.parent
              (normalizePredicate pred ++ [c.relation.foreignKey]) payload trx w2
            rw [h] at hfr
            have hg := (hfr (World.lt_nextRef_of_getRow w2 hc2 hppar)).1
            rw [hg]
            exact hppar
          · intro r hr
            obtain ⟨d, hgr, hfk, hsome⟩ := hall r hr
            have hfr := heapFrame_relatedUpdateOrCreateMany r
              (normalizePredicate pred ++ [c.relation.foreignKey]) payload trx w2
            rw [h] at hfr
            have hg := (hfr (World.lt_nextRef_of_getRow w2 hc2 hgr)).1
            exact ⟨d, by rw [hg]; exact hgr, hfk, hsome⟩

theorem fetchOrCreateMany_post (c : HasManyQueryClient) (payload : List Ref)
    (pred : PredicateArg) {w w' : World} {rs : List Ref}
    (hclosed : w.refsClosed)
    (hne : ∀ r ∈ payload, r ≠ c.parent)
    (h : c.fetchOrCreateMany payload pred w = (w', Except.ok rs)) :
    ∃ pd, w'.getRow c.parent = some pd ∧
      ∀ r ∈ payload, PayloadHydrated c.relation w' pd r := by
  unfold HasManyQueryClient.fetchOrCreateMany managedTransaction at h
  split at h
  next t ht => exact fetchOrCreateManyWork_post c payload pred t hclosed hne h
  next cl =>
      split at h
      next w2 a heq =>
          have hw' : (w2.commitTrx (w.beginTrx).1, Except.ok a)
              = ((w' : World), (Except.ok rs : Except OpError (List Ref))) := h
          have hw'1 : w2.commitTrx (w.beginTrx).1 = w' := congrArg Prod.fst hw'
          have hcb : ((w.beginTrx).2).refsClosed := hclosed
          obtain ⟨pd, hppar, hall⟩ :=
            fetchOrCreateManyWork_post c payload pred (w.beginTrx).1 hcb hne heq
          refine ⟨pd, ?_, ?_⟩
          · rw [← hw'1, World.getRow_commitTrx]
            exact hppar
          · intro r hr
            obtain ⟨d, hgr, hfk, hsome⟩ := hall r hr
            exact ⟨d, by rw [← hw'1, World.getRow_commitTrx]; exact hgr, hfk, hsome⟩
      next w2 e heq => exact absurd h (by simp)

theorem updateOrCreateMany_post (c : HasManyQueryClient) (payload : List Ref)
    (pred : PredicateArg) {w w' : World} {rs : List Ref}
    (hclosed : w.refsClosed)
    (hne : ∀ r ∈ payload, r ≠ c.parent)
    (h : c.updateOrCreateMany payload pred w = (w', Except.ok rs)) :
    ∃ pd, w'.getRow c.parent = some pd ∧
      ∀ r ∈ payload, PayloadHydrated c.relation w' pd r := by
  unfold HasManyQueryClient.updateOrCreateMany managedTransaction at h
  split at h
  next t ht => exact updateOrCreateManyWork_post c payload pred t hclosed hne h
  next cl =>
      split at h
      next w2 a heq =>
          have hw' : (w2.commitTrx (w.beginTrx).1, Except.ok a)
              = ((w' : World), (Except.ok rs : Except OpError (List Ref))) := h
          have hw'1 : w2.commitTrx (w.beginTrx).1 = w' := congrArg Prod.fst hw'
          have hcb : ((w.beginTrx).2).refsClosed := hclosed
          obtain ⟨pd, hppar, hall⟩ :=
            updateOrCreateManyWork_post c payload pred (w.beginTrx).1 hcb hne heq
          refine ⟨pd, ?_, ?_⟩
          · rw [← hw'1, World.getRow_commitTrx]
            exact hppar
          · intro r hr
            obtain ⟨d, hgr, hfk, hsome⟩ := hall r hr
            exact ⟨d, by rw [← hw'1, World.getRow_commitTrx]; exact hgr, hfk, hsome⟩
      next w2 e heq => exact absurd h (by simp)

/-- C9: `create` and `createMany` shallow-copy each payload before the
foreign key is hydrated onto the copy, so the caller's field-value maps are
untouched by the call (their heap bindings are unchanged, whatever the
outcome); `fetchOrCreateMany` and `updateOrCreateMany` instead hydrate the
foreign key directly onto the caller's payload objects, so after a
successful call every payload object carries the parent's local-key value
in its foreign-key field. -/
theorem create_copies_inputs_batch_hydrates_in_place (c : HasManyQueryClient) :
    (∀ (values : Ref) (w : World), values ≠ c.parent →
      heapFrame values w (c.create values w).1) ∧
    (∀ (values : List Ref) (v : Ref) (w : World), v ∈ values → v ≠ c.parent →
      heapFrame v w (c.createMany values w).1) ∧
    (∀ (payload : List Ref) (pred : PredicateArg) (w w' : World) (rs : List Ref),
      w.refsClosed → (∀ r ∈ payload, r ≠ c.parent) →
      c.fetchOrCreateMany payload pred w = (w', Except.ok rs) →
      ∃ pd, w'.getRow c.parent = some pd ∧
        ∀ r ∈ payload, PayloadHydrated c.relation w' pd r) ∧
    (∀ (payload : List Ref) (pred : PredicateArg) (w w' : World) (rs : List Ref),
      w.refsClosed → (∀ r ∈ payload, r ≠ c.parent) →
      c.updateOrCreateMany payload pred w = (w', Except.ok rs) →
      ∃ pd, w'.getRow c.parent = some pd ∧
        ∀ r ∈ payload, PayloadHydrated c.relation w' pd r) := by
  refine ⟨?_, ?_, ?_, ?_⟩
  · intro values w hp
    exact heapFrame_create values c values w hp
  · intro values v w _ hp
    exact heapFrame_createMany v c values w hp
  · intro payload pred w w' rs hclosed hne h
    exact fetchOrCreateMany_post c payload pred hclosed hne h
  · intro payload pred w w' rs hclosed hne h
    exact updateOrCreateMany_post c payload pred hclosed hne h

def wFrameSample : World :=
  ⟨[(0, ⟨[("id", 1)], [], none, false⟩), (1, ⟨[("title", 7)], [], none, false⟩)],
   [], [], [], 0, 2, none⟩

def cFrameSample : HasManyQueryClient :=
  ⟨⟨"id", "author_id", "posts.author_id", none⟩, 0, ⟨0⟩⟩

/-- Concrete check for C9: `create(ref 1)` leaves the caller's payload
object (ref 1) untouched, while `fetchOrCreateMany([ref 1])` ends with
ref 1 itself carrying the parent's local key in its foreign-key field. -/
theorem create_copies_inputs_batch_hydrates_in_place_witness :
    ((cFrameSample.create 1 wFrameSample).1.getRow 1 = wFrameSample.getRow 1 ∧
      (1 : Ref) < ((cFrameSample.create 1 wFrameSample).1).nextRef) ∧
    (∃ pd, ((cFrameSample.fetchOrCreateMany [1] PredicateArg.undef wFrameSample).1).getRow 0
        = some pd ∧
      ∀ r ∈ [1], PayloadHydrated cFrameSample.relation
        ((cFrameSample.fetchOrCreateMany [1] PredicateArg.undef wFrameSample).1) pd r) :=
  ⟨(create_copies_inputs_batch_hydrates_in_place cFrameSample).1 1 wFrameSample
      (by decide) (by decide),
   (create_copies_inputs_batch_hydrates_in_place cFrameSample).2.2.1 [1]
      PredicateArg.undef wFrameSample
      ((cFrameSample.fetchOrCreateMany [1] PredicateArg.undef wFrameSample).1) [2]
      (by decide) (by decide) (by decide)⟩
